import Mathlib

/-!
Shallow embedding of the `orbital` synthesizer core
(crates/orbital/src/{envelope.rs, osc.rs, osc_array.rs, com.rs,
osc/primary.rs, osc/modulator.rs}).

The envelope (envelope.rs) only uses field arithmetic and comparisons on
f64/f32 values, so it is embedded over the rationals, keeping every
definition executable and every concrete evaluation decidable.  The
oscillator bank needs cos, sqrt and real exponentiation, so it is embedded
over the reals.
-/

namespace Orbital

/-! ## envelope.rs -/

/-- Rust `f32::clamp`/`f64::clamp` on an ordered field:
`self.clamp(lo, hi) = min (max self lo) hi` (NaN-free inputs). -/
def rclamp (x lo hi : ℚ) : ℚ := min (max x lo) hi

/-- `lerp` from envelope.rs: `(b * alpha) + (a * (1.0 - alpha))`. -/
def lerp (a b alpha : ℚ) : ℚ := b * alpha + a * (1 - alpha)

/-- `EnvelopeParams` from envelope.rs. -/
structure EnvelopeParams where
  delay : ℚ
  attack : ℚ
  hold : ℚ
  decay : ℚ
  sustain_level : ℚ
  release : ℚ
  deriving DecidableEq

/-- `EnvelopeParams::default`. -/
def EnvelopeParams.default : EnvelopeParams :=
  { delay := 0, attack := 1/5, hold := 1/10, decay := 1/10,
    sustain_level := 4/5, release := 1/10 }

/-- `Envelope` from envelope.rs. -/
structure Envelope where
  press : Option ℚ
  release : Option ℚ
  parameters : EnvelopeParams
  deriving DecidableEq

/-- `Envelope::default`. -/
def Envelope.default : Envelope :=
  { press := none, release := none, parameters := EnvelopeParams.default }

/-- `Envelope::on_press`: sets the press event, resets the release event. -/
def Envelope.on_press (e : Envelope) (at_ : ℚ) : Envelope :=
  { e with press := some at_, release := none }

/-- `Envelope::on_release`. -/
def Envelope.on_release (e : Envelope) (at_ : ℚ) : Envelope :=
  { e with release := some at_ }

/-- `Envelope::reset`. -/
def Envelope.reset (e : Envelope) : Envelope :=
  { e with press := none, release := none }

/-- `Envelope::step_linear`: steps the delay-attack-hold-decay chain until
`at`.  Mirrors the if-chain of envelope.rs exactly, including the running
subtraction on `local`. -/
def Envelope.step_linear (e : Envelope) (at_ : ℚ) : ℚ :=
  match e.press with
  | none => 0
  | some start =>
    let local0 := at_ - start
    if local0 > e.parameters.delay + e.parameters.attack
        + e.parameters.hold + e.parameters.decay then
      e.parameters.sustain_level
    else if local0 < e.parameters.delay then 0
    else
      let local1 := local0 - e.parameters.delay
      if local1 < e.parameters.attack then
        lerp 0 1 (rclamp (local1 / e.parameters.attack) 0 1)
      else
        let local2 := local1 - e.parameters.attack
        if local2 < e.parameters.hold then 1
        else
          let local3 := local2 - e.parameters.hold
          if local3 < e.parameters.decay then
            lerp 1 e.parameters.sustain_level
              (rclamp (local3 / e.parameters.decay) 0 1)
          else e.parameters.sustain_level

/-- `Envelope::after_sampling`: true when `at` is past `release + release
duration`. -/
def Envelope.after_sampling (e : Envelope) (at_ : ℚ) : Bool :=
  match e.release with
  | some e_end => decide (e_end + e.parameters.release < at_)
  | none => false

/-- `Envelope::sample`. -/
def Envelope.sample (e : Envelope) (at_ : ℚ) : ℚ :=
  match e.press with
  | none => 0
  | some _ =>
    match e.release with
    | some rel =>
      let relo := at_ - rel
      if relo < 0 then e.step_linear at_
      else if relo > e.parameters.release then 0
      else
        let at_release := e.step_linear rel
        let normalize := rclamp (relo / e.parameters.release) 0 1
        lerp at_release 0 normalize
    | none => e.step_linear at_

/-! ## osc/primary.rs, osc/modulator.rs, com.rs -/

noncomputable section

/-- `TWOPI` from renderer/orbital.rs. -/
def TWOPI : ℝ := 2 * Real.pi

/-- `Orbital::ABS_BASE_FREQ` from renderer/orbital.rs. -/
def ABS_BASE_FREQ : ℝ := 440

/-- `PrimaryOsc` from osc/primary.rs. -/
structure PrimaryOsc where
  speed_index : ℝ
  volume : ℝ
  is_on : Bool

/-- `PrimaryOsc::freq`: `base_frequency * 2.0f32.powf(self.speed_index)`. -/
def PrimaryOsc.freq (o : PrimaryOsc) (base_frequency : ℝ) : ℝ :=
  base_frequency * (2 : ℝ) ^ o.speed_index

/-- `PrimaryOsc::default`. -/
def PrimaryOsc.default : PrimaryOsc :=
  { speed_index := 0, volume := 0, is_on := false }

/-- `ParentIndex` from osc/modulator.rs. -/
inductive ParentIndex where
  | Primary (i : ℕ)
  | Modulator (i : ℕ)
  deriving DecidableEq

/-- `ModulatorOsc` from osc/modulator.rs. -/
structure ModulatorOsc where
  parent_osc_slot : ParentIndex
  is_on : Bool
  range : ℝ
  speed_index : ℝ

/-- `ModulatorOsc::freq`. -/
def ModulatorOsc.freq (o : ModulatorOsc) (base_frequency : ℝ) : ℝ :=
  base_frequency * (2 : ℝ) ^ o.speed_index

/-- `ModulatorOsc::default`. -/
def ModulatorOsc.default : ModulatorOsc :=
  { parent_osc_slot := ParentIndex.Primary 0, is_on := false,
    range := 0, speed_index := 0 }

/-- `ModulationType` from osc.rs. -/
inductive ModulationType where
  | Absolute
  | Relative
  deriving DecidableEq

/-- `sigmoid` from osc.rs: `x / (1.0 + x * x).sqrt()`. -/
def sigmoid (x : ℝ) : ℝ := x / Real.sqrt (1 + x * x)

/-- `GainType` from com.rs. -/
inductive GainType where
  | Sigmoid
  | Linear
  deriving DecidableEq

/-- `GainType::map`: sigmoid or `value.clamp(-1.0, 1.0)`
(Rust clamp is `min (max value lo) hi`). -/
def GainType.map : GainType → ℝ → ℝ
  | GainType.Sigmoid, value => sigmoid value
  | GainType.Linear, value => min (max value (-1)) 1

/-! ## osc.rs: oscillator slots and the bank -/

/-- `Oscillator<S>` from osc.rs. -/
structure Oscillator (S : Type) where
  osc : S
  mod_multiplier : ℝ
  mod_counter : ℕ
  offset : ℝ
  phase : ℝ

/-- `Oscillator::freq_multiplier`. -/
def Oscillator.freq_multiplier {S : Type} (o : Oscillator S) : ℝ :=
  if o.mod_counter = 0 then 1 else o.mod_multiplier / (o.mod_counter : ℝ)

/-- `Oscillator::default` (given the default of the state type). -/
def Oscillator.mkDefault {S : Type} (s : S) : Oscillator S :=
  { osc := s, mod_multiplier := 1, mod_counter := 0, offset := 0, phase := 0 }

/-- `OscillatorBank` from osc.rs.  `VOICE_COUNT = 10`,
`PRIMARY_OSC_COUNT = 8`, `MOD_OSC_COUNT = 16`, so the flat banks have
`PRIMARY_BANK_SIZE = 80` and `MODULATOR_BANK_SIZE = 160` slots, indexed by
`voice * count + slot`. -/
structure OscillatorBank where
  primary_osc : Fin 80 → Oscillator PrimaryOsc
  modulator_osc : Fin 160 → Oscillator ModulatorOsc
  mod_ty : ModulationType
  gain_ty : GainType
  reset_phase : Bool

/-- `OscillatorBank::default`. -/
def OscillatorBank.default : OscillatorBank :=
  { primary_osc := fun _ => Oscillator.mkDefault PrimaryOsc.default,
    modulator_osc := fun _ => Oscillator.mkDefault ModulatorOsc.default,
    mod_ty := ModulationType.Relative,
    gain_ty := GainType.Sigmoid,
    reset_phase := false }

/-- `OscillatorBank::primary_osc_index`: `voice * PRIMARY_OSC_COUNT + osc`. -/
def primary_osc_index (voice : Fin 10) (osc : Fin 8) : Fin 80 :=
  ⟨voice.val * 8 + osc.val, by
    have h1 := voice.isLt
    have h2 := osc.isLt
    omega⟩

/-- `OscillatorBank::modulator_osc_index`: `voice * MOD_OSC_COUNT + osc`. -/
def modulator_osc_index (voice : Fin 10) (osc : Fin 16) : Fin 160 :=
  ⟨voice.val * 16 + osc.val, by
    have h1 := voice.isLt
    have h2 := osc.isLt
    omega⟩

/-- `OscillatorBank::reset_voice`: zero the phase of every slot of the
voice.  Slot `i` belongs to voice `v` iff `i / count = v`. -/
def OscillatorBank.reset_voice (b : OscillatorBank) (voice : Fin 10) :
    OscillatorBank :=
  { b with
    primary_osc := fun i =>
      if i.val / 8 = voice.val then { b.primary_osc i with phase := 0 }
      else b.primary_osc i,
    modulator_osc := fun i =>
      if i.val / 16 = voice.val then { b.modulator_osc i with phase := 0 }
      else b.modulator_osc i }

/-! `sleef::f32x::fmodf` is the C `fmodf`: the remainder of truncating
division, `x - y * trunc (x / y)`, which carries the sign of `x`. -/

/-- Truncation toward zero of a real number, as an integer. -/
def rtrunc (q : ℝ) : ℤ := if 0 ≤ q then ⌊q⌋ else -⌊-q⌋

/-- C `fmodf` over the reals: `x - y * trunc (x / y)`. -/
def fmodf (x y : ℝ) : ℝ := x - y * (rtrunc (x / y) : ℝ)

/-- `OscillatorBank::phase_step` (per SIMD element):
`fmodf (current_phase + d_sec * (base * multiplier) * TWOPI) TWOPI`. -/
def phase_step (base multiplier current_phase d_sec : ℝ) : ℝ :=
  fmodf (current_phase + d_sec * (base * multiplier) * TWOPI) TWOPI

/-- `OscillatorBank::simd_sample` (per SIMD element):
`cos (phase + offset) * volume`. -/
def simd_sample (phase offset volume : ℝ) : ℝ :=
  Real.cos (phase + offset) * volume

end

/-! ### `OscillatorBank::step_simd`

The SIMD lanes of osc.rs group 4 adjacent slots; inside a lane every
arithmetic operation is elementwise and reads only the element's own
fields, so the first (modulator phase step) loop is embedded as a
pointwise map over the voice's modulator slots.  The modulator-to-parent
write loop accumulates into `mod_multiplier`/`mod_counter`, fields that
the per-lane sample precomputation never reads, so it is embedded as a
sequential fold over the 16 modulator slots in program order; the
unchecked Rust array indexing `self.primary_osc[idx]` /
`self.modulator_osc[idx]` on the parent slot is embedded as a bounds
check returning `none` (panic) when the flat index falls outside the
bank.  The primary loop keeps the per-lane grouping because the active
count, and hence the normalization divisor, is computed per lane. -/

noncomputable section

/-- One modulator slot of the first loop of `step_simd`: pick the base
frequency by modulation type (clamped below by 0), advance the phase, and
reset the slot's own accumulated modulation. -/
def stepModOsc (mod_ty : ModulationType) (base_frequency sample_delta : ℝ)
    (o : Oscillator ModulatorOsc) : Oscillator ModulatorOsc :=
  let base : ℝ :=
    match mod_ty with
    | ModulationType.Absolute => max (o.osc.freq ABS_BASE_FREQ) 0
    | ModulationType.Relative => max (o.osc.freq base_frequency) 0
  { o with
    phase := phase_step base o.freq_multiplier o.phase sample_delta,
    mod_counter := 0,
    mod_multiplier := 0 }

/-- First loop of `step_simd`: phase-step all modulator slots of the
voice. -/
def OscillatorBank.step_mod_phases (b : OscillatorBank) (voice : Fin 10)
    (base_frequency sample_delta : ℝ) : OscillatorBank :=
  { b with
    modulator_osc := fun i =>
      if i.val / 16 = voice.val then
        stepModOsc b.mod_ty base_frequency sample_delta (b.modulator_osc i)
      else b.modulator_osc i }

/-- The modulation value of one modulator slot of the second loop:
`1.0 + simd_sample phase offset (if is_on then range else 0)`. -/
def modPhaseSample (o : Oscillator ModulatorOsc) : ℝ :=
  1 + simd_sample o.phase o.offset (if o.osc.is_on then o.osc.range else 0)

/-- The parent-side accumulation of the second loop:
`mod_multiplier += value; mod_counter += 1`. -/
def addModulation {S : Type} (o : Oscillator S) (value : ℝ) : Oscillator S :=
  { o with
    mod_multiplier := o.mod_multiplier + value,
    mod_counter := o.mod_counter + 1 }

/-- One modulator slot of the second loop of `step_simd`: if the
modulator is on, write its modulation value to the parent slot, whose
flat index `voice * count + parent` is **not** bounds-checked in osc.rs;
`none` models the out-of-bounds panic. -/
def OscillatorBank.write_mod_step (b : OscillatorBank) (voice : Fin 10)
    (m : Fin 16) : Option OscillatorBank :=
  let o := b.modulator_osc (modulator_osc_index voice m)
  if o.osc.is_on then
    match o.osc.parent_osc_slot with
    | ParentIndex.Modulator modid =>
      if h : voice.val * 16 + modid < 160 then
        some { b with
          modulator_osc := fun i =>
            if i = (⟨voice.val * 16 + modid, h⟩ : Fin 160) then
              addModulation (b.modulator_osc i) (modPhaseSample o)
            else b.modulator_osc i }
      else none
    | ParentIndex.Primary modid =>
      if h : voice.val * 8 + modid < 80 then
        some { b with
          primary_osc := fun i =>
            if i = (⟨voice.val * 8 + modid, h⟩ : Fin 80) then
              addModulation (b.primary_osc i) (modPhaseSample o)
            else b.primary_osc i }
      else none
  else some b

/-- Second loop of `step_simd`: fold the modulator-to-parent writes over
the voice's 16 modulator slots, in slot order. -/
def OscillatorBank.write_modulations (b : OscillatorBank) (voice : Fin 10) :
    Option OscillatorBank :=
  (List.finRange 16).foldl
    (fun ob m => ob.bind (fun b' => b'.write_mod_step voice m)) (some b)

/-- Phase step of a primary slot in the third loop of `step_simd`. -/
def stepPrimaryPhase (base_frequency sample_delta : ℝ)
    (o : Oscillator PrimaryOsc) : ℝ :=
  phase_step (max (o.osc.freq base_frequency) 0) o.freq_multiplier o.phase
    sample_delta

/-- The flat primary slot of element `i` of a SIMD lane. -/
def lane_slot (voice : Fin 10) (lane : Fin 2) (i : Fin 4) : Fin 80 :=
  primary_osc_index voice ⟨lane.val * 4 + i.val, by
    have h1 := lane.isLt
    have h2 := i.isLt
    omega⟩

/-- The active-primary count of one SIMD lane (the divisor `count`). -/
def OscillatorBank.lane_count (b : OscillatorBank) (voice : Fin 10)
    (lane : Fin 2) : ℕ :=
  (if (b.primary_osc (lane_slot voice lane 0)).osc.is_on then 1 else 0)
    + (if (b.primary_osc (lane_slot voice lane 1)).osc.is_on then 1 else 0)
    + (if (b.primary_osc (lane_slot voice lane 2)).osc.is_on then 1 else 0)
    + (if (b.primary_osc (lane_slot voice lane 3)).osc.is_on then 1 else 0)

/-- One element of `primary_sample`: the cosine sample at the stepped
phase, with the volume zeroed for an inactive slot. -/
def OscillatorBank.lane_sample (b : OscillatorBank) (voice : Fin 10)
    (base_frequency sample_delta : ℝ) (lane : Fin 2) (i : Fin 4) : ℝ :=
  simd_sample
    (stepPrimaryPhase base_frequency sample_delta
      (b.primary_osc (lane_slot voice lane i)))
    (b.primary_osc (lane_slot voice lane i)).offset
    (if (b.primary_osc (lane_slot voice lane i)).osc.is_on then
      (b.primary_osc (lane_slot voice lane i)).osc.volume
    else 0)

/-- One SIMD lane of the third loop of `step_simd` (4 primary slots):
phase-step the lane, add `cos (phase + offset) * volume` of the active
slots divided by the lane's active count to the accumulator, and reset
the lane's modulation accumulators to `(1.0, 0)`.  A slot `j` belongs to
the lane iff `j / 8 = voice` and `(j % 8) / 4 = lane`, and its stepped
phase is computed from its own pre-state. -/
def OscillatorBank.prim_lane_step (b : OscillatorBank) (voice : Fin 10)
    (base_frequency sample_delta : ℝ) (lane : Fin 2) :
    OscillatorBank × ℝ :=
  let count := b.lane_count voice lane
  let lane_sum :=
    b.lane_sample voice base_frequency sample_delta lane 0
      + b.lane_sample voice base_frequency sample_delta lane 1
      + b.lane_sample voice base_frequency sample_delta lane 2
      + b.lane_sample voice base_frequency sample_delta lane 3
  let contrib : ℝ := if count = 0 then 0 else lane_sum / (count : ℝ)
  ({ b with
      primary_osc := fun j =>
        if j.val / 8 = voice.val ∧ (j.val % 8) / 4 = lane.val then
          { b.primary_osc j with
            phase := stepPrimaryPhase base_frequency sample_delta
              (b.primary_osc j),
            mod_counter := 0,
            mod_multiplier := 1 }
        else b.primary_osc j },
    contrib)

/-- `OscillatorBank::step_simd`: one sample step of one voice.  Returns
the stepped bank and the voice's accumulated sample, or `none` when the
Rust code would panic on an out-of-range parent index. -/
def OscillatorBank.step_simd (b : OscillatorBank) (voice : Fin 10)
    (base_frequency sample_delta : ℝ) : Option (OscillatorBank × ℝ) :=
  let bA := b.step_mod_phases voice base_frequency sample_delta
  (bA.write_modulations voice).map (fun bB =>
    let r0 := bB.prim_lane_step voice base_frequency sample_delta 0
    let r1 := r0.1.prim_lane_step voice base_frequency sample_delta 1
    (r1.1, r0.2 + r1.2))

end

/-! ## osc_array.rs: voice states, and osc.rs `process` -/

/-- `VoiceState` from osc_array.rs. -/
inductive VoiceState where
  | Off
  | On
  | Released
  deriving DecidableEq

/-- `VoiceState::is_off`. -/
def VoiceState.is_off : VoiceState → Bool
  | VoiceState.Off => true
  | _ => false

/-- `VoiceState::is_released`. -/
def VoiceState.is_released : VoiceState → Bool
  | VoiceState.Released => true
  | _ => false

/-- `OscVoiceState` from osc_array.rs.  Time values are rational, the
note frequency is the real produced by `midi_note_to_freq`. -/
structure OscVoiceState where
  env : Envelope
  state : VoiceState
  note : ℕ
  freq : ℝ

/-- `OscVoiceState::default`. -/
def OscVoiceState.default : OscVoiceState :=
  { env := Envelope.default, state := VoiceState.Off, note := 0, freq := 0 }

noncomputable section

/-- Per-sample voice loop of `OscillatorBank::process`: for each voice
that is not off, step the voice's bank once and accumulate
`step_simd(..) * env.sample(sample_time)`. -/
def OscillatorBank.process_voice_loop (b : OscillatorBank)
    (voices : Fin 10 → OscVoiceState) (sample_delta : ℝ)
    (sample_time : ℚ) : Option (OscillatorBank × ℝ) :=
  (List.finRange 10).foldl
    (fun acc v =>
      acc.bind (fun p =>
        if (voices v).state.is_off then some p
        else
          (p.1.step_simd v (voices v).freq sample_delta).map (fun q =>
            (q.1, p.2 + q.2 * (((voices v).env.sample sample_time : ℚ) : ℝ)))))
    (some (b, 0))

/-- Sample loop of `OscillatorBank::process`: iterate `n` buffer samples,
gain-mapping each accumulated value and advancing the sample time by
`delta_sec` per sample.  Returns the stepped bank and the per-sample
output values (each written identically to every channel). -/
def OscillatorBank.process_samples (b : OscillatorBank)
    (voices : Fin 10 → OscVoiceState) (delta_sec : ℚ) (sample_time : ℚ) :
    ℕ → Option (OscillatorBank × List ℝ)
  | 0 => some (b, [])
  | n + 1 =>
    (b.process_voice_loop voices ((delta_sec : ℚ) : ℝ) sample_time).bind
      (fun p =>
        (p.1.process_samples voices delta_sec (sample_time + delta_sec) n).map
          (fun r => (r.1, b.gain_ty.map p.2 :: r.2)))

/-- `OscillatorBank::process`: `delta_sec = 1 / sample_rate`. -/
def OscillatorBank.process (b : OscillatorBank)
    (voices : Fin 10 → OscVoiceState) (sample_rate : ℚ) (nsamples : ℕ)
    (buffer_time_start : ℚ) : Option (OscillatorBank × List ℝ) :=
  b.process_samples voices (1 / sample_rate) buffer_time_start nsamples

end

/-! ## com.rs snapshot types and osc.rs `on_state_change` -/

/-- `PrimaryState` from com.rs. -/
structure PrimaryState where
  offset : ℝ
  state : PrimaryOsc
  slot : ℕ

/-- `ModulatorState` from com.rs. -/
structure ModulatorState where
  offset : ℝ
  state : ModulatorOsc
  slot : ℕ

/-- `SolarState` from com.rs. -/
structure SolarState where
  primary_states : List PrimaryState
  modulator_states : List ModulatorState

/-- `OscillatorBank::on_primary_osc_line`: apply `f` to the slot `line`
of every voice (flat slots with `i % 8 = line`); a line out of range is
ignored. -/
def OscillatorBank.on_primary_osc_line (b : OscillatorBank) (line : ℕ)
    (f : Oscillator PrimaryOsc → Oscillator PrimaryOsc) : OscillatorBank :=
  if line ≥ 8 then b
  else
    { b with
      primary_osc := fun i =>
        if i.val % 8 = line then f (b.primary_osc i) else b.primary_osc i }

/-- `OscillatorBank::on_modulator_osc_line`. -/
def OscillatorBank.on_modulator_osc_line (b : OscillatorBank) (line : ℕ)
    (f : Oscillator ModulatorOsc → Oscillator ModulatorOsc) :
    OscillatorBank :=
  if line ≥ 16 then b
  else
    { b with
      modulator_osc := fun i =>
        if i.val % 16 = line then f (b.modulator_osc i) else b.modulator_osc i }

/-- `OscillatorBank::on_state_change`: turn every oscillator off, then
write each snapshot entry's offset and oscillator state to its line. -/
def OscillatorBank.on_state_change (b : OscillatorBank) (new : SolarState) :
    OscillatorBank :=
  let b0 : OscillatorBank :=
    { b with
      primary_osc := fun i =>
        let o := b.primary_osc i
        { o with osc := { o.osc with is_on := false } },
      modulator_osc := fun i =>
        let o := b.modulator_osc i
        { o with osc := { o.osc with is_on := false } } }
  let b1 := new.primary_states.foldl
    (fun bb p =>
      bb.on_primary_osc_line p.slot
        (fun o => { o with offset := p.offset, osc := p.state })) b0
  new.modulator_states.foldl
    (fun bb p =>
      bb.on_modulator_osc_line p.slot
        (fun o => { o with offset := p.offset, osc := p.state })) b1

/-! ## osc_array.rs: the allocator -/

/-- `nih_plug::util::midi_note_to_freq`:
`2^((note - 69) / 12) * 440`. -/
noncomputable def midi_note_to_freq (note : ℕ) : ℝ :=
  (2 : ℝ) ^ (((note : ℝ) - 69) / 12) * 440

/-- `OscArray` from osc_array.rs. -/
structure OscArray where
  bank : OscillatorBank
  voices : Fin 10 → OscVoiceState

/-- `OscArray::default`. -/
noncomputable def OscArray.default : OscArray :=
  { bank := OscillatorBank.default, voices := fun _ => OscVoiceState.default }

/-- The voice scan of `OscArray::note_on`, from index `i` upward. -/
def find_off_from (voices : Fin 10 → OscVoiceState) (i : ℕ) :
    Option (Fin 10) :=
  if h : i < 10 then
    if (voices ⟨i, h⟩).state.is_off then some ⟨i, h⟩
    else find_off_from voices (i + 1)
  else none
termination_by 10 - i

/-- The voice scan of `OscArray::note_on`: the first voice (in index
order) whose state is off. -/
def find_off_voice (voices : Fin 10 → OscVoiceState) : Option (Fin 10) :=
  find_off_from voices 0

/-- `OscArray::note_on`: initialize the first inactive voice; if none is
free the event is dropped. -/
noncomputable def OscArray.note_on (s : OscArray) (note : ℕ) (at_ : ℚ) :
    OscArray :=
  match find_off_voice s.voices with
  | none => s
  | some vidx =>
    { bank := if s.bank.reset_phase then s.bank.reset_voice vidx else s.bank,
      voices := fun v =>
        if v = vidx then
          { env := (s.voices v).env.on_press at_,
            state := VoiceState.On,
            note := note,
            freq := midi_note_to_freq note }
        else s.voices v }

/-- `OscArray::note_off`: release every non-off voice holding the note. -/
def OscArray.note_off (s : OscArray) (note : ℕ) (at_ : ℚ) : OscArray :=
  { s with
    voices := fun v =>
      if (s.voices v).note = note ∧ (s.voices v).state.is_off = false then
        { s.voices v with
          env := (s.voices v).env.on_release at_,
          state := VoiceState.Released }
      else s.voices v }

/-- `OscArray::set_envelopes`. -/
def OscArray.set_envelopes (s : OscArray) (new : EnvelopeParams) : OscArray :=
  { s with
    voices := fun v =>
      { s.voices v with env := { (s.voices v).env with parameters := new } } }

/-- The per-voice reclamation at the start of `OscArray::process`. -/
def reclaim_voice (v : OscVoiceState) (buffer_time_start : ℚ) :
    OscVoiceState :=
  if v.env.after_sampling buffer_time_start then
    { env := v.env.reset, state := VoiceState.Off, note := 0, freq := 0 }
  else v

/-- `OscArray::process`: reclaim finished voices, then run the bank. -/
noncomputable def OscArray.process (s : OscArray) (sample_rate : ℚ)
    (nsamples : ℕ) (buffer_time_start : ℚ) : Option (OscArray × List ℝ) :=
  let voices' := fun v => reclaim_voice (s.voices v) buffer_time_start
  (s.bank.process voices' sample_rate nsamples buffer_time_start).map
    (fun p => ({ bank := p.1, voices := voices' }, p.2))

/-! ## Envelope lemmas -/

theorem rclamp_nonneg (x hi : ℚ) (h : 0 ≤ hi) : 0 ≤ rclamp x 0 hi := by
  unfold rclamp
  exact le_min (le_max_right x 0) h

theorem rclamp_le_hi (x lo hi : ℚ) : rclamp x lo hi ≤ hi :=
  min_le_right _ _

theorem rclamp_mono (x y lo hi : ℚ) (h : x ≤ y) :
    rclamp x lo hi ≤ rclamp y lo hi :=
  min_le_min (max_le_max h le_rfl) le_rfl

/-- Before the press instant, the linear DAHD walk yields 0 (stage
durations nonnegative, as §3 of the data model requires). -/
theorem step_linear_before_press (e : Envelope) (p at_ : ℚ)
    (hp : e.press = some p) (hat : at_ < p)
    (hd : 0 ≤ e.parameters.delay) (ha : 0 ≤ e.parameters.attack)
    (hh : 0 ≤ e.parameters.hold) (hde : 0 ≤ e.parameters.decay) :
    e.step_linear at_ = 0 := by
  unfold Envelope.step_linear
  rw [hp]
  have h1 : ¬ (at_ - p > e.parameters.delay + e.parameters.attack
      + e.parameters.hold + e.parameters.decay) := by linarith
  have h2 : at_ - p < e.parameters.delay := by linarith
  simp only [h1, if_false, h2, if_true]

/-- The envelope level is nonnegative whenever the sustain level is. -/
theorem step_linear_nonneg (e : Envelope) (at_ : ℚ)
    (hs : 0 ≤ e.parameters.sustain_level) : 0 ≤ e.step_linear at_ := by
  unfold Envelope.step_linear
  cases hp : e.press with
  | none => simp
  | some start =>
    simp only
    split
    · exact hs
    · split
      · exact le_refl 0
      · split
        · unfold lerp
          have h0 := rclamp_nonneg ((at_ - start - e.parameters.delay)
            / e.parameters.attack) 1 (by norm_num)
          nlinarith [rclamp_le_hi ((at_ - start - e.parameters.delay)
            / e.parameters.attack) 0 1]
        · split
          · norm_num
          · split
            · unfold lerp
              have h0 := rclamp_nonneg
                ((at_ - start - e.parameters.delay - e.parameters.attack
                  - e.parameters.hold) / e.parameters.decay) 1 (by norm_num)
              have h1 := rclamp_le_hi
                ((at_ - start - e.parameters.delay - e.parameters.attack
                  - e.parameters.hold) / e.parameters.decay) 0 1
              nlinarith
            · exact hs

/-- At or after the release instant the sample is the release
interpolation. -/
theorem sample_after_release (e : Envelope) (p r at_ : ℚ)
    (hp : e.press = some p) (hr : e.release = some r) (h1 : r ≤ at_) :
    e.sample at_ =
      if at_ - r > e.parameters.release then 0
      else lerp (e.step_linear r) 0
        (rclamp ((at_ - r) / e.parameters.release) 0 1) := by
  unfold Envelope.sample
  rw [hp, hr]
  have h2 : ¬ (at_ - r < 0) := by linarith
  simp only [h2, if_false]

/-- C6: for every envelope whose press field is `some p` and stage
durations that are nonnegative (the §3 validity condition on
`EnvelopeParams`), sampling strictly before `p` returns 0, whether or not
a release time is set. -/
theorem sample_before_press_zero (e : Envelope) (p at_ : ℚ)
    (hp : e.press = some p) (hat : at_ < p)
    (hd : 0 ≤ e.parameters.delay) (ha : 0 ≤ e.parameters.attack)
    (hh : 0 ≤ e.parameters.hold) (hde : 0 ≤ e.parameters.decay) :
    e.sample at_ = 0 := by
  unfold Envelope.sample
  rw [hp]
  cases hr : e.release with
  | none =>
    simpa using step_linear_before_press e p at_ hp hat hd ha hh hde
  | some rel =>
    simp only
    split
    · exact step_linear_before_press e p at_ hp hat hd ha hh hde
    · split
      · rfl
      · rename_i hrel1 hrel2
        have hrp : rel < p := by
          by_contra hc
          push_neg at hc
          have : at_ - rel < 0 := by linarith
          exact hrel1 this
        rw [step_linear_before_press e p rel hp hrp hd ha hh hde]
        unfold lerp
        ring

/-- C7: with all four leading stage durations zero and no release set,
sampling exactly at the press instant returns the sustain level (the
degenerate stages collapse, no division by zero occurs). -/
theorem sample_at_press_degenerate (e : Envelope) (p : ℚ)
    (hp : e.press = some p) (hr : e.release = none)
    (h1 : e.parameters.delay = 0) (h2 : e.parameters.attack = 0)
    (h3 : e.parameters.hold = 0) (h4 : e.parameters.decay = 0) :
    e.sample p = e.parameters.sustain_level := by
  unfold Envelope.sample
  rw [hp, hr]
  unfold Envelope.step_linear
  rw [hp]
  simp [h1, h2, h3, h4]

/-- C3: with press set and release set at `r`, for `at ≥ r` the sample is
the linear interpolation from `step_linear r` down to 0 with the clamped
fraction `(at - r) / release_duration`, is 0 past `r + release_duration`,
and (for a nonnegative sustain level, the §3 validity convention) is
monotonically decreasing from `r` on. -/
theorem sample_release_interpolation (e : Envelope) (p r at_ : ℚ)
    (hp : e.press = some p) (hr : e.release = some r) (h1 : r ≤ at_) :
    (at_ ≤ r + e.parameters.release →
      e.sample at_ = lerp (e.step_linear r) 0
        (rclamp ((at_ - r) / e.parameters.release) 0 1)) ∧
    (r + e.parameters.release < at_ → e.sample at_ = 0) ∧
    (0 ≤ e.parameters.sustain_level →
      ∀ at2 : ℚ, at_ ≤ at2 → e.sample at2 ≤ e.sample at_) := by
  refine ⟨?_, ?_, ?_⟩
  · intro hle
    rw [sample_after_release e p r at_ hp hr h1]
    have h2 : ¬ (at_ - r > e.parameters.release) := by
      push_neg
      linarith
    simp only [h2, if_false]
  · intro hlt
    rw [sample_after_release e p r at_ hp hr h1]
    have h2 : at_ - r > e.parameters.release := by linarith
    simp only [h2, if_true]
  · intro hs at2 h2
    have hv : 0 ≤ e.step_linear r := step_linear_nonneg e r hs
    rw [sample_after_release e p r at_ hp hr h1,
        sample_after_release e p r at2 hp hr (le_trans h1 h2)]
    by_cases hc2 : at2 - r > e.parameters.release
    · simp only [hc2, if_true]
      by_cases hc1 : at_ - r > e.parameters.release
      · simp [hc1]
      · simp only [hc1, if_false]
        unfold lerp
        have c0 := rclamp_nonneg ((at_ - r) / e.parameters.release) 1
          (by norm_num)
        have c1 := rclamp_le_hi ((at_ - r) / e.parameters.release) 0 1
        nlinarith
    · have hc1 : ¬ (at_ - r > e.parameters.release) := by
        push_neg at hc2 ⊢
        linarith
      simp only [hc2, hc1, if_false]
      unfold lerp
      push_neg at hc2
      have hmono : rclamp ((at_ - r) / e.parameters.release) 0 1
          ≤ rclamp ((at2 - r) / e.parameters.release) 0 1 := by
        rcases lt_trichotomy e.parameters.release 0 with hD | hD | hD
        · exfalso
          linarith
        · have e1 : at2 - r = 0 := le_antisymm (by linarith) (by linarith)
          have e2 : at_ - r = 0 := le_antisymm (by linarith) (by linarith)
          rw [e1, e2]
        · have hdiv : (at_ - r) / e.parameters.release
              ≤ (at2 - r) / e.parameters.release := by
            rw [div_le_div_iff hD hD]
            nlinarith
          exact rclamp_mono _ _ _ _ hdiv
      have c0 := rclamp_nonneg ((at2 - r) / e.parameters.release) 1
        (by norm_num)
      have c1 := rclamp_le_hi ((at_ - r) / e.parameters.release) 0 1
      nlinarith

/-- Concrete envelope for the release-interpolation witness:
press 0, release 5, release duration 2. -/
def envC3 : Envelope :=
  { press := some 0, release := some 5,
    parameters := { delay := 0, attack := 1, hold := 0, decay := 1,
                    sustain_level := 4/5, release := 2 } }

/-- Witness for C3 at concrete inputs. -/
theorem sample_release_interpolation_witness :
    envC3.press = some 0 ∧ envC3.release = some 5 ∧ (5 : ℚ) ≤ 6 ∧
    envC3.sample 6 = lerp (envC3.step_linear 5) 0
      (rclamp ((6 - 5) / envC3.parameters.release) 0 1) ∧
    envC3.sample 8 = 0 ∧
    envC3.sample 7 ≤ envC3.sample 6 :=
  ⟨rfl, rfl, by norm_num,
    (sample_release_interpolation envC3 0 5 6 rfl rfl (by norm_num)).1
      (by norm_num [envC3]),
    (sample_release_interpolation envC3 0 5 8 rfl rfl (by norm_num)).2.1
      (by norm_num [envC3]),
    (sample_release_interpolation envC3 0 5 6 rfl rfl (by norm_num)).2.2
      (by norm_num [envC3]) 7 (by norm_num)⟩

/-- Concrete envelope for the before-press witness. -/
def envC6 : Envelope := { Envelope.default with press := some 5 }

/-- Witness for C6 at concrete inputs. -/
theorem sample_before_press_zero_witness :
    envC6.press = some 5 ∧ (3 : ℚ) < 5 ∧
    0 ≤ envC6.parameters.delay ∧ 0 ≤ envC6.parameters.attack ∧
    0 ≤ envC6.parameters.hold ∧ 0 ≤ envC6.parameters.decay ∧
    envC6.sample 3 = 0 :=
  ⟨rfl, by norm_num, by norm_num [envC6, Envelope.default, EnvelopeParams.default], by norm_num [envC6, Envelope.default, EnvelopeParams.default], by norm_num [envC6, Envelope.default, EnvelopeParams.default], by norm_num [envC6, Envelope.default, EnvelopeParams.default],
    sample_before_press_zero envC6 5 3 rfl (by norm_num) (by norm_num [envC6, Envelope.default, EnvelopeParams.default])
      (by norm_num [envC6, Envelope.default, EnvelopeParams.default]) (by norm_num [envC6, Envelope.default, EnvelopeParams.default]) (by norm_num [envC6, Envelope.default, EnvelopeParams.default])⟩

/-- Concrete envelope for the degenerate-stages witness. -/
def envC7 : Envelope :=
  { press := some 3, release := none,
    parameters := { delay := 0, attack := 0, hold := 0, decay := 0,
                    sustain_level := 7/10, release := 1/10 } }

/-- Witness for C7 at concrete inputs. -/
theorem sample_at_press_degenerate_witness :
    envC7.press = some 3 ∧ envC7.release = none ∧
    envC7.parameters.delay = 0 ∧ envC7.parameters.attack = 0 ∧
    envC7.parameters.hold = 0 ∧ envC7.parameters.decay = 0 ∧
    envC7.sample 3 = envC7.parameters.sustain_level :=
  ⟨rfl, rfl, rfl, rfl, rfl, rfl,
    sample_at_press_degenerate envC7 3 rfl rfl rfl rfl rfl rfl⟩

/-- C8: the linear gain is the clamp of its input to `[-1, 1]`, and the
sigmoid gain is odd-symmetric and strictly bounded in `(-1, 1)`. -/
theorem gain_map_clamp_and_sigmoid (x : ℝ) :
    GainType.map GainType.Linear x = max (-1) (min 1 x) ∧
    GainType.map GainType.Sigmoid (-x) = - GainType.map GainType.Sigmoid x ∧
    -1 < GainType.map GainType.Sigmoid x ∧
    GainType.map GainType.Sigmoid x < 1 := by
  have hb : |sigmoid x| < 1 := by
    have hs : 0 < Real.sqrt (1 + x * x) := Real.sqrt_pos.mpr (by nlinarith)
    have habs : |x| < Real.sqrt (1 + x * x) := by
      have h1 : Real.sqrt (x ^ 2) < Real.sqrt (1 + x * x) :=
        Real.sqrt_lt_sqrt (sq_nonneg x) (by nlinarith)
      rwa [Real.sqrt_sq_eq_abs] at h1
    unfold sigmoid
    rw [abs_div, abs_of_pos hs]
    exact (div_lt_one hs).mpr habs
  refine ⟨?_, ?_, (abs_lt.mp hb).1, (abs_lt.mp hb).2⟩
  · show min (max x (-1)) 1 = max (-1) (min 1 x)
    rcases le_total x (-1) with h | h <;> rcases le_total x 1 with h2 | h2 <;>
      simp [max_def, min_def] <;> split_ifs <;> linarith
  · show sigmoid (-x) = - sigmoid x
    unfold sigmoid
    have h : (1 : ℝ) + -x * -x = 1 + x * x := by ring
    rw [h, neg_div]

/-! ## Voice allocation (osc_array.rs `note_on`) -/

theorem find_off_from_none (voices : Fin 10 → OscVoiceState) :
    ∀ d i, 10 - i = d →
      (∀ j (hj : j < 10), i ≤ j → (voices ⟨j, hj⟩).state.is_off = false) →
      find_off_from voices i = none := by
  intro d
  induction d with
  | zero =>
    intro i h0 _
    unfold find_off_from
    rw [dif_neg (by omega)]
  | succ n ih =>
    intro i h0 h1
    have hi : i < 10 := by omega
    unfold find_off_from
    rw [dif_pos hi, h1 i hi le_rfl]
    simp only [Bool.false_eq_true, if_false]
    exact ih (i + 1) (by omega) (fun j hj hij => h1 j hj (by omega))

theorem find_off_from_first (voices : Fin 10 → OscVoiceState) (k : ℕ)
    (hk : k < 10) (h2 : (voices ⟨k, hk⟩).state.is_off = true) :
    ∀ d i, k - i = d → i ≤ k →
      (∀ j (hj : j < 10), i ≤ j → j < k →
        (voices ⟨j, hj⟩).state.is_off = false) →
      find_off_from voices i = some ⟨k, hk⟩ := by
  intro d
  induction d with
  | zero =>
    intro i h0 hik _
    have : i = k := by omega
    subst this
    unfold find_off_from
    rw [dif_pos (by omega)]
    rw [show (⟨i, by omega⟩ : Fin 10) = ⟨i, hk⟩ from rfl, h2]
    simp
  | succ n ih =>
    intro i h0 hik h1
    have hikk : i < k := by omega
    have hi : i < 10 := by omega
    unfold find_off_from
    rw [dif_pos hi, h1 i hi le_rfl hikk]
    simp only [Bool.false_eq_true, if_false]
    exact ih (i + 1) (by omega) (by omega)
      (fun j hj hij hjk => h1 j hj (by omega) hjk)

/-- A sequence of `note_on` events applied to the default `OscArray`. -/
noncomputable def note_on_seq (notes : ℕ → ℕ × ℚ) : ℕ → OscArray
  | 0 => OscArray.default
  | k + 1 => (note_on_seq notes k).note_on (notes k).1 (notes k).2

theorem note_on_seq_state (notes : ℕ → ℕ × ℚ) :
    ∀ k, k ≤ 10 → ∀ v : Fin 10,
      ((note_on_seq notes k).voices v).state =
        if v.val < k then VoiceState.On else VoiceState.Off := by
  intro k
  induction k with
  | zero =>
    intro _ v
    simp [note_on_seq, OscArray.default, OscVoiceState.default]
  | succ n ih =>
    intro hn v
    have hn' : n ≤ 10 := by omega
    have hn10 : n < 10 := by omega
    have hfind : find_off_voice (note_on_seq notes n).voices
        = some ⟨n, hn10⟩ := by
      apply find_off_from_first _ n hn10 ?_ n 0 (by omega) (by omega) ?_
      · rw [ih hn' ⟨n, hn10⟩]
        simp [VoiceState.is_off]
      · intro j hj _ hjn
        rw [ih hn' ⟨j, hj⟩]
        simp only [hjn, if_true]
        rfl
    show ((OscArray.note_on _ _ _).voices v).state = _
    unfold OscArray.note_on
    rw [hfind]
    simp only
    by_cases hv : v = (⟨n, hn10⟩ : Fin 10)
    · rw [if_pos hv]
      have hvv : v.val = n := by rw [hv]
      have : v.val < n + 1 := by omega
      simp [this]
    · rw [if_neg hv]
      rw [ih hn' v]
      have hvn : v.val ≠ n := by
        intro hc
        exact hv (Fin.ext hc)
      by_cases hlt : v.val < n
      · simp only [hlt, if_true]
        have : v.val < n + 1 := by omega
        simp [this]
      · simp only [hlt, if_false]
        have : ¬ (v.val < n + 1) := by omega
        simp [this]

/-- C5: from the default `OscArray`, eleven `note_on` calls (with no
intervening `note_off` or reclamation) leave exactly the ten voices in
state `On`, and the eleventh call is a complete no-op: the whole
`OscArray` (every voice's state, note, frequency, envelope, and the
bank) is unchanged. -/
theorem note_on_saturation (notes : ℕ → ℕ × ℚ) :
    (∀ v : Fin 10,
      ((note_on_seq notes 10).voices v).state = VoiceState.On) ∧
    note_on_seq notes 11 = note_on_seq notes 10 := by
  have h10 := note_on_seq_state notes 10 le_rfl
  constructor
  · intro v
    rw [h10 v, if_pos v.isLt]
  · show (note_on_seq notes 10).note_on _ _ = note_on_seq notes 10
    unfold OscArray.note_on
    have hfind : find_off_voice (note_on_seq notes 10).voices = none := by
      apply find_off_from_none _ 10 0 (by omega)
      intro j hj _
      rw [h10 ⟨j, hj⟩, if_pos hj]
      rfl
    rw [hfind]

/-! ## Allocator invariant (osc_array.rs) -/

/-- The allocator states reachable from the default `OscArray` via
`note_on`, `note_off`, `set_envelopes` and (non-panicking) `process`
calls. -/
inductive OscArrayReach : OscArray → Prop where
  | default : OscArrayReach OscArray.default
  | note_on (s : OscArray) (note : ℕ) (at_ : ℚ) :
      OscArrayReach s → OscArrayReach (s.note_on note at_)
  | note_off (s : OscArray) (note : ℕ) (at_ : ℚ) :
      OscArrayReach s → OscArrayReach (s.note_off note at_)
  | set_envelopes (s : OscArray) (p : EnvelopeParams) :
      OscArrayReach s → OscArrayReach (s.set_envelopes p)
  | process (s s' : OscArray) (sample_rate : ℚ) (nsamples : ℕ) (t : ℚ)
      (outs : List ℝ) : OscArrayReach s →
      s.process sample_rate nsamples t = some (s', outs) → OscArrayReach s'

/-- C9: in every reachable allocator state, a voice's envelope has a
release time set only if the voice is in state `Released`; consequently
the reclamation step of `OscArray::process` leaves every `On` or `Off`
voice untouched. -/
theorem release_implies_released (s : OscArray) (h : OscArrayReach s) :
    (∀ v : Fin 10, ((s.voices v).env.release).isSome = true →
      (s.voices v).state = VoiceState.Released) ∧
    (∀ (t : ℚ) (v : Fin 10), (s.voices v).state ≠ VoiceState.Released →
      reclaim_voice (s.voices v) t = s.voices v) := by
  have key : ∀ v : Fin 10, ((s.voices v).env.release).isSome = true →
      (s.voices v).state = VoiceState.Released := by
    induction h with
    | default =>
      intro v
      simp [OscArray.default, OscVoiceState.default, Envelope.default]
    | note_on s0 note at_ _ ih =>
      intro v
      unfold OscArray.note_on
      cases hf : find_off_voice s0.voices with
      | none =>
        simp only [hf]
        exact ih v
      | some vidx =>
        simp only [hf]
        by_cases hv : v = vidx
        · simp [hv, Envelope.on_press]
        · simp only [hv, if_false]
          exact ih v
    | note_off s0 note at_ _ ih =>
      intro v
      unfold OscArray.note_off
      by_cases hc : (s0.voices v).note = note ∧
          (s0.voices v).state.is_off = false
      · simp [hc]
      · simp only [hc, if_false]
        exact ih v
    | set_envelopes s0 p _ ih =>
      intro v
      unfold OscArray.set_envelopes
      exact ih v
    | process s0 s' sample_rate nsamples t outs _ heq ih =>
      intro v
      unfold OscArray.process at heq
      cases hbp : s0.bank.process
          (fun v => reclaim_voice (s0.voices v) t) sample_rate nsamples t with
      | none =>
        simp only [hbp, Option.map_none'] at heq
        exact Option.noConfusion heq
      | some p2 =>
        simp only [hbp, Option.map_some', Option.some_inj,
          Prod.mk.injEq] at heq
        obtain ⟨h1, h2⟩ := heq
        have hs' : s'.voices = fun v => reclaim_voice (s0.voices v) t :=
          congrArg OscArray.voices h1.symm
        rw [hs']
        by_cases ha : (s0.voices v).env.after_sampling t = true
        · simp [reclaim_voice, ha, Envelope.reset]
        · simp only [reclaim_voice]
          rw [if_neg ha]
          exact ih v
  refine ⟨key, ?_⟩
  intro t v hstate
  have hrel : ((s.voices v).env.release) = none := by
    cases hr : ((s.voices v).env.release) with
    | none => rfl
    | some x =>
      exact absurd (key v (by rw [hr]; rfl)) hstate
  unfold reclaim_voice
  have hfalse : (s.voices v).env.after_sampling t = false := by
    unfold Envelope.after_sampling
    rw [hrel]
  rw [hfalse]
  simp

/-- Witness for C9 at the default allocator state. -/
theorem release_implies_released_witness :
    OscArrayReach OscArray.default ∧
    (((OscArray.default.voices 0).env.release).isSome = true →
      (OscArray.default.voices 0).state = VoiceState.Released) ∧
    reclaim_voice (OscArray.default.voices 0) 0 = OscArray.default.voices 0 :=
  ⟨OscArrayReach.default,
    (release_implies_released _ OscArrayReach.default).1 0,
    (release_implies_released _ OscArrayReach.default).2 0 0
      (by simp [OscArray.default, OscVoiceState.default])⟩

/-! ## Topology snapshots (osc.rs `on_state_change`) -/

/-- The last snapshot entry targeting a given primary line. -/
def lastSlotPrim (l : List PrimaryState) (line : ℕ) : Option PrimaryState :=
  (l.filter (fun e => decide (e.slot = line))).getLast?

/-- The last snapshot entry targeting a given modulator line. -/
def lastSlotMod (l : List ModulatorState) (line : ℕ) : Option ModulatorState :=
  (l.filter (fun e => decide (e.slot = line))).getLast?

theorem on_primary_osc_line_apply (b : OscillatorBank) (line : ℕ)
    (f : Oscillator PrimaryOsc → Oscillator PrimaryOsc) (i : Fin 80) :
    (b.on_primary_osc_line line f).primary_osc i =
      if i.val % 8 = line then f (b.primary_osc i) else b.primary_osc i := by
  unfold OscillatorBank.on_primary_osc_line
  by_cases h : line ≥ 8
  · rw [if_pos h, if_neg (by omega : ¬ (i.val % 8 = line))]
  · rw [if_neg h]

theorem on_modulator_osc_line_apply (b : OscillatorBank) (line : ℕ)
    (f : Oscillator ModulatorOsc → Oscillator ModulatorOsc) (i : Fin 160) :
    (b.on_modulator_osc_line line f).modulator_osc i =
      if i.val % 16 = line then f (b.modulator_osc i) else b.modulator_osc i := by
  unfold OscillatorBank.on_modulator_osc_line
  by_cases h : line ≥ 16
  · rw [if_pos h, if_neg (by omega : ¬ (i.val % 16 = line))]
  · rw [if_neg h]

theorem on_primary_osc_line_modulator (b : OscillatorBank) (line : ℕ)
    (f : Oscillator PrimaryOsc → Oscillator PrimaryOsc) :
    (b.on_primary_osc_line line f).modulator_osc = b.modulator_osc := by
  unfold OscillatorBank.on_primary_osc_line
  split <;> rfl

theorem on_modulator_osc_line_primary (b : OscillatorBank) (line : ℕ)
    (f : Oscillator ModulatorOsc → Oscillator ModulatorOsc) :
    (b.on_modulator_osc_line line f).primary_osc = b.primary_osc := by
  unfold OscillatorBank.on_modulator_osc_line
  split <;> rfl

theorem foldl_prim_apply (l : List PrimaryState) (B : OscillatorBank)
    (i : Fin 80) :
    (l.foldl (fun bb p => bb.on_primary_osc_line p.slot
        (fun o => { o with offset := p.offset, osc := p.state })) B).primary_osc
        i =
      match lastSlotPrim l (i.val % 8) with
      | some e => { B.primary_osc i with offset := e.offset, osc := e.state }
      | none => B.primary_osc i := by
  induction l using List.reverseRecOn with
  | nil => rfl
  | append_singleton l e ih =>
    rw [List.foldl_append, List.foldl_cons, List.foldl_nil,
      on_primary_osc_line_apply]
    unfold lastSlotPrim
    rw [List.filter_append]
    by_cases hsl : e.slot = i.val % 8
    · have hc : i.val % 8 = e.slot := hsl.symm
      rw [if_pos hc]
      have hfe : List.filter (fun e2 => decide (e2.slot = i.val % 8)) [e]
          = [e] := by
        simp [hsl]
      rw [hfe, List.getLast?_concat, ih]
      cases lastSlotPrim l (i.val % 8) <;> rfl
    · have hc : ¬ (i.val % 8 = e.slot) := fun h => hsl h.symm
      rw [if_neg hc]
      have hfe : List.filter (fun e2 => decide (e2.slot = i.val % 8)) [e]
          = [] := by
        simp [hsl]
      rw [hfe, List.append_nil, ih]
      rfl

theorem foldl_mod_apply (l : List ModulatorState) (B : OscillatorBank)
    (i : Fin 160) :
    (l.foldl (fun bb p => bb.on_modulator_osc_line p.slot
        (fun o => { o with offset := p.offset, osc := p.state })) B).modulator_osc
        i =
      match lastSlotMod l (i.val % 16) with
      | some e => { B.modulator_osc i with offset := e.offset, osc := e.state }
      | none => B.modulator_osc i := by
  induction l using List.reverseRecOn with
  | nil => rfl
  | append_singleton l e ih =>
    rw [List.foldl_append, List.foldl_cons, List.foldl_nil,
      on_modulator_osc_line_apply]
    unfold lastSlotMod
    rw [List.filter_append]
    by_cases hsl : e.slot = i.val % 16
    · have hc : i.val % 16 = e.slot := hsl.symm
      rw [if_pos hc]
      have hfe : List.filter (fun e2 => decide (e2.slot = i.val % 16)) [e]
          = [e] := by
        simp [hsl]
      rw [hfe, List.getLast?_concat, ih]
      cases lastSlotMod l (i.val % 16) <;> rfl
    · have hc : ¬ (i.val % 16 = e.slot) := fun h => hsl h.symm
      rw [if_neg hc]
      have hfe : List.filter (fun e2 => decide (e2.slot = i.val % 16)) [e]
          = [] := by
        simp [hsl]
      rw [hfe, List.append_nil, ih]
      rfl

theorem foldl_prim_modulator (l : List PrimaryState) (B : OscillatorBank) :
    (l.foldl (fun bb p => bb.on_primary_osc_line p.slot
        (fun o => { o with offset := p.offset, osc := p.state })) B).modulator_osc
      = B.modulator_osc := by
  induction l generalizing B with
  | nil => rfl
  | cons e l ih =>
    rw [List.foldl_cons, ih, on_primary_osc_line_modulator]

theorem foldl_mod_primary (l : List ModulatorState) (B : OscillatorBank) :
    (l.foldl (fun bb p => bb.on_modulator_osc_line p.slot
        (fun o => { o with offset := p.offset, osc := p.state })) B).primary_osc
      = B.primary_osc := by
  induction l generalizing B with
  | nil => rfl
  | cons e l ih =>
    rw [List.foldl_cons, ih, on_modulator_osc_line_primary]

/-- C10: `on_state_change` first turns every oscillator off, then
broadcasts each in-range snapshot entry's offset and oscillator state to
that line of every voice (the last entry for a line wins); entries with
out-of-range slots are ignored, and any line not named by an in-range
entry keeps its runtime fields but ends up turned off. -/
theorem on_state_change_characterization (b : OscillatorBank)
    (snap : SolarState) (v : Fin 10) (p : Fin 8) (m : Fin 16) :
    ((b.on_state_change snap).primary_osc (primary_osc_index v p) =
      match lastSlotPrim snap.primary_states p.val with
      | some e =>
        { b.primary_osc (primary_osc_index v p) with
          offset := e.offset, osc := e.state }
      | none =>
        { b.primary_osc (primary_osc_index v p) with
          osc := { (b.primary_osc (primary_osc_index v p)).osc with
                    is_on := false } }) ∧
    ((b.on_state_change snap).modulator_osc (modulator_osc_index v m) =
      match lastSlotMod snap.modulator_states m.val with
      | some e =>
        { b.modulator_osc (modulator_osc_index v m) with
          offset := e.offset, osc := e.state }
      | none =>
        { b.modulator_osc (modulator_osc_index v m) with
          osc := { (b.modulator_osc (modulator_osc_index v m)).osc with
                    is_on := false } }) := by
  have hpmod : (primary_osc_index v p).val % 8 = p.val := by
    show (v.val * 8 + p.val) % 8 = p.val
    have h2 := p.isLt
    omega
  have hmmod : (modulator_osc_index v m).val % 16 = m.val := by
    show (v.val * 16 + m.val) % 16 = m.val
    have h2 := m.isLt
    omega
  have hdef : b.on_state_change snap =
      snap.modulator_states.foldl
        (fun bb p2 => bb.on_modulator_osc_line p2.slot
          (fun o => { o with offset := p2.offset, osc := p2.state }))
        (snap.primary_states.foldl
          (fun bb p2 => bb.on_primary_osc_line p2.slot
            (fun o => { o with offset := p2.offset, osc := p2.state }))
          { b with
            primary_osc := fun i =>
              let o := b.primary_osc i
              { o with osc := { o.osc with is_on := false } },
            modulator_osc := fun i =>
              let o := b.modulator_osc i
              { o with osc := { o.osc with is_on := false } } }) := rfl
  constructor
  · rw [hdef, foldl_mod_primary, foldl_prim_apply, hpmod]
  · rw [hdef, foldl_mod_apply, foldl_prim_modulator, hmmod]

/-! ## step_simd structural lemmas -/

@[simp] theorem stepModOsc_osc (mt : ModulationType) (bf d : ℝ)
    (o : Oscillator ModulatorOsc) : (stepModOsc mt bf d o).osc = o.osc := rfl

@[simp] theorem addModulation_osc {S : Type} (o : Oscillator S) (v : ℝ) :
    (addModulation o v).osc = o.osc := rfl

@[simp] theorem step_mod_phases_primary (b : OscillatorBank)
    (voice : Fin 10) (bf d : ℝ) :
    (b.step_mod_phases voice bf d).primary_osc = b.primary_osc := rfl

theorem step_mod_phases_modulator (b : OscillatorBank) (voice : Fin 10)
    (bf d : ℝ) (i : Fin 160) :
    (b.step_mod_phases voice bf d).modulator_osc i =
      if i.val / 16 = voice.val then
        stepModOsc b.mod_ty bf d (b.modulator_osc i)
      else b.modulator_osc i := rfl

@[simp] theorem prim_lane_step_modulator (b : OscillatorBank)
    (voice : Fin 10) (bf d : ℝ) (lane : Fin 2) :
    (b.prim_lane_step voice bf d lane).1.modulator_osc = b.modulator_osc :=
  rfl

theorem prim_lane_step_frame (b : OscillatorBank) (voice : Fin 10)
    (bf d : ℝ) (lane : Fin 2) (j : Fin 80) (hj : j.val / 8 ≠ voice.val) :
    (b.prim_lane_step voice bf d lane).1.primary_osc j = b.primary_osc j := by
  show (if j.val / 8 = voice.val ∧ (j.val % 8) / 4 = lane.val then _
    else b.primary_osc j) = b.primary_osc j
  rw [if_neg (fun hc => hj hc.1)]

/-! ## C2: the unchecked parent write of step_simd -/

/-- Whether a `parent_osc_slot` is inside the per-voice slot counts. -/
def parent_in_range : ParentIndex → Bool
  | ParentIndex.Primary i => decide (i < 8)
  | ParentIndex.Modulator i => decide (i < 16)

theorem write_mod_step_in_range (b : OscillatorBank) (voice : Fin 10)
    (m : Fin 16)
    (h : (b.modulator_osc (modulator_osc_index voice m)).osc.is_on = true →
      parent_in_range
        (b.modulator_osc (modulator_osc_index voice m)).osc.parent_osc_slot
        = true) :
    ∃ b1, b.write_mod_step voice m = some b1 ∧
      (∀ j : Fin 80, j.val / 8 ≠ voice.val →
        b1.primary_osc j = b.primary_osc j) ∧
      (∀ j : Fin 160, j.val / 16 ≠ voice.val →
        b1.modulator_osc j = b.modulator_osc j) ∧
      (∀ j : Fin 160, (b1.modulator_osc j).osc = (b.modulator_osc j).osc) ∧
      b1.mod_ty = b.mod_ty := by
  unfold OscillatorBank.write_mod_step
  by_cases hon : (b.modulator_osc (modulator_osc_index voice m)).osc.is_on
      = true
  · simp only [hon, if_true]
    have hin := h hon
    cases hp : (b.modulator_osc (modulator_osc_index voice m)).osc.parent_osc_slot with
    | Primary pid =>
      rw [hp] at hin
      have hpid : pid < 8 := by simpa [parent_in_range] using hin
      have hflat : voice.val * 8 + pid < 80 := by
        have h1 := voice.isLt
        omega
      dsimp only
      rw [dif_pos hflat]
      refine ⟨_, rfl, ?_, fun _ _ => rfl, fun _ => rfl, rfl⟩
      intro j hj
      have hne : j ≠ (⟨voice.val * 8 + pid, hflat⟩ : Fin 80) := by
        intro hc
        apply hj
        rw [hc]
        show (voice.val * 8 + pid) / 8 = voice.val
        omega
      simp only [if_neg hne]
    | Modulator mid =>
      rw [hp] at hin
      have hmid : mid < 16 := by simpa [parent_in_range] using hin
      have hflat : voice.val * 16 + mid < 160 := by
        have h1 := voice.isLt
        omega
      dsimp only
      rw [dif_pos hflat]
      refine ⟨_, rfl, fun _ _ => rfl, ?_, ?_, rfl⟩
      · intro j hj
        have hne : j ≠ (⟨voice.val * 16 + mid, hflat⟩ : Fin 160) := by
          intro hc
          apply hj
          rw [hc]
          show (voice.val * 16 + mid) / 16 = voice.val
          omega
        simp only [if_neg hne]
      · intro j
        by_cases hje : j = (⟨voice.val * 16 + mid, hflat⟩ : Fin 160)
        · simp only [hje, if_pos, addModulation_osc]
        · simp only [if_neg hje]
  · rw [Bool.not_eq_true] at hon
    simp only [hon, Bool.false_eq_true, if_false]
    exact ⟨b, rfl, fun _ _ => rfl, fun _ _ => rfl, fun _ => rfl, rfl⟩

theorem write_modulations_fold_spec (voice : Fin 10) (l : List (Fin 16)) :
    ∀ b : OscillatorBank,
      (∀ m : Fin 16,
        (b.modulator_osc (modulator_osc_index voice m)).osc.is_on = true →
        parent_in_range
          (b.modulator_osc (modulator_osc_index voice m)).osc.parent_osc_slot
          = true) →
      ∃ b', l.foldl (fun ob m => ob.bind (fun b2 => b2.write_mod_step voice m))
          (some b) = some b' ∧
        (∀ j : Fin 80, j.val / 8 ≠ voice.val →
          b'.primary_osc j = b.primary_osc j) ∧
        (∀ j : Fin 160, j.val / 16 ≠ voice.val →
          b'.modulator_osc j = b.modulator_osc j) ∧
        (∀ j : Fin 160, (b'.modulator_osc j).osc = (b.modulator_osc j).osc) ∧
        b'.mod_ty = b.mod_ty := by
  induction l with
  | nil =>
    intro b _
    exact ⟨b, rfl, fun _ _ => rfl, fun _ _ => rfl, fun _ => rfl, rfl⟩
  | cons m l ih =>
    intro b hb
    obtain ⟨b1, hb1, hf1, hf2, hosc, hmt⟩ :=
      write_mod_step_in_range b voice m (hb m)
    have hb1h : ∀ m2 : Fin 16,
        (b1.modulator_osc (modulator_osc_index voice m2)).osc.is_on = true →
        parent_in_range
          (b1.modulator_osc (modulator_osc_index voice m2)).osc.parent_osc_slot
          = true := by
      intro m2
      rw [hosc (modulator_osc_index voice m2)]
      exact hb m2
    obtain ⟨b', hb', hg1, hg2, hgosc, hgmt⟩ := ih b1 hb1h
    refine ⟨b', ?_, ?_, ?_, ?_, ?_⟩
    · simp only [List.foldl_cons, Option.some_bind]
      rw [hb1]
      exact hb'
    · intro j hj
      rw [hg1 j hj, hf1 j hj]
    · intro j hj
      rw [hg2 j hj, hf2 j hj]
    · intro j
      rw [hgosc j, hosc j]
    · rw [hgmt, hmt]

/-- C2 (amended): `step_simd` skips modulators that are off; it performs
no bounds check on `parent_osc_slot`, but provided every **on** modulator
of the voice has an in-range parent index, the step never panics and
never writes into another voice's slots. -/
theorem step_simd_in_range_no_panic (b : OscillatorBank) (voice : Fin 10)
    (base_frequency sample_delta : ℝ)
    (h : ∀ m : Fin 16,
      (b.modulator_osc (modulator_osc_index voice m)).osc.is_on = true →
      parent_in_range
        (b.modulator_osc (modulator_osc_index voice m)).osc.parent_osc_slot
        = true) :
    ∃ p : OscillatorBank × ℝ,
      b.step_simd voice base_frequency sample_delta = some p ∧
      (∀ j : Fin 80, j.val / 8 ≠ voice.val →
        p.1.primary_osc j = b.primary_osc j) ∧
      (∀ j : Fin 160, j.val / 16 ≠ voice.val →
        p.1.modulator_osc j = b.modulator_osc j) := by
  have hA : ∀ m : Fin 16,
      ((b.step_mod_phases voice base_frequency sample_delta).modulator_osc
        (modulator_osc_index voice m)).osc.is_on = true →
      parent_in_range
        ((b.step_mod_phases voice base_frequency sample_delta).modulator_osc
          (modulator_osc_index voice m)).osc.parent_osc_slot = true := by
    intro m
    rw [step_mod_phases_modulator]
    have hdiv : (modulator_osc_index voice m).val / 16 = voice.val := by
      show (voice.val * 16 + m.val) / 16 = voice.val
      have h2 := m.isLt
      omega
    rw [if_pos hdiv, stepModOsc_osc]
    exact h m
  obtain ⟨bB, hbB, hf1, hf2, _, _⟩ :=
    write_modulations_fold_spec voice (List.finRange 16)
      (b.step_mod_phases voice base_frequency sample_delta) hA
  refine ⟨(((bB.prim_lane_step voice base_frequency sample_delta 0).1.prim_lane_step
        voice base_frequency sample_delta 1).1,
      (bB.prim_lane_step voice base_frequency sample_delta 0).2 +
        ((bB.prim_lane_step voice base_frequency sample_delta 0).1.prim_lane_step
          voice base_frequency sample_delta 1).2), ?_, ?_, ?_⟩
  · unfold OscillatorBank.step_simd
    show ((b.step_mod_phases voice base_frequency
        sample_delta).write_modulations voice).map _ = _
    unfold OscillatorBank.write_modulations
    rw [hbB, Option.map_some']
  · intro j hj
    have hlane1 := prim_lane_step_frame
      ((bB.prim_lane_step voice base_frequency sample_delta 0).1) voice
      base_frequency sample_delta 1 j hj
    have hlane0 := prim_lane_step_frame bB voice base_frequency
      sample_delta 0 j hj
    simp only [hlane1, hlane0]
    rw [hf1 j hj]
    rfl
  · intro j hj
    show bB.modulator_osc j = b.modulator_osc j
    rw [hf2 j hj, step_mod_phases_modulator, if_neg hj]

/-- Concrete bank for the C2 counterexample: voice 9's modulator 0 is on
and refers to primary parent slot 8, one past the per-voice range. -/
noncomputable def bankC2 : OscillatorBank :=
  { OscillatorBank.default with
    modulator_osc := fun i =>
      if i.val = 144 then
        { Oscillator.mkDefault ModulatorOsc.default with
          osc := { parent_osc_slot := ParentIndex.Primary 8, is_on := true,
                   range := 0, speed_index := 0 } }
      else Oscillator.mkDefault ModulatorOsc.default }

/-- Witness for the amended C2 theorem at the default bank (all
modulators off, so the in-range hypothesis holds vacuously). -/
theorem step_simd_in_range_no_panic_witness :
    (∀ m : Fin 16,
      (OscillatorBank.default.modulator_osc
        (modulator_osc_index 0 m)).osc.is_on = true →
      parent_in_range (OscillatorBank.default.modulator_osc
        (modulator_osc_index 0 m)).osc.parent_osc_slot = true) ∧
    ∃ p : OscillatorBank × ℝ,
      OscillatorBank.default.step_simd 0 440 1 = some p ∧
      (∀ j : Fin 80, j.val / 8 ≠ (0 : Fin 10).val →
        p.1.primary_osc j = OscillatorBank.default.primary_osc j) ∧
      (∀ j : Fin 160, j.val / 16 ≠ (0 : Fin 10).val →
        p.1.modulator_osc j = OscillatorBank.default.modulator_osc j) :=
  ⟨(fun _ hm => nomatch hm),
    step_simd_in_range_no_panic OscillatorBank.default 0 440 1
      (fun _ hm => nomatch hm)⟩

/-- C2 counterexample: with an out-of-range `parent_osc_slot`
(`Primary 8` on voice 9), one step of the bank hits the flat index
`9 * 8 + 8 = 80` in the 80-slot primary array: the Rust code panics
(modeled as `none`) instead of skipping the modulator. -/
theorem step_simd_out_of_range_panics :
    bankC2.step_simd ⟨9, by norm_num⟩ 440 1 = none := rfl

/-! ## C1: per-voice sample normalization of step_simd -/

theorem write_mod_step_off (b : OscillatorBank) (voice : Fin 10)
    (m : Fin 16)
    (h : (b.modulator_osc (modulator_osc_index voice m)).osc.is_on = false) :
    b.write_mod_step voice m = some b := by
  unfold OscillatorBank.write_mod_step
  simp only [h, Bool.false_eq_true, if_false]

theorem write_modulations_all_off (b : OscillatorBank) (voice : Fin 10)
    (h : ∀ m : Fin 16,
      (b.modulator_osc (modulator_osc_index voice m)).osc.is_on = false) :
    b.write_modulations voice = some b := by
  unfold OscillatorBank.write_modulations
  have key : ∀ l : List (Fin 16),
      l.foldl (fun ob m => ob.bind (fun b2 => b2.write_mod_step voice m))
        (some b) = some b := by
    intro l
    induction l with
    | nil => rfl
    | cons m l ih =>
      simp only [List.foldl_cons, Option.some_bind]
      rw [write_mod_step_off b voice m (h m)]
      exact ih
  exact key (List.finRange 16)

@[simp] theorem prim_lane_step_osc (b : OscillatorBank) (voice : Fin 10)
    (bf d : ℝ) (lane : Fin 2) (j : Fin 80) :
    ((b.prim_lane_step voice bf d lane).1.primary_osc j).osc =
      (b.primary_osc j).osc := by
  show (if j.val / 8 = voice.val ∧ (j.val % 8) / 4 = lane.val then
      { b.primary_osc j with
        phase := stepPrimaryPhase bf d (b.primary_osc j),
        mod_counter := 0,
        mod_multiplier := 1 }
    else b.primary_osc j).osc = (b.primary_osc j).osc
  split <;> rfl

theorem abs_lane_sample_le (b : OscillatorBank) (voice : Fin 10)
    (bf d : ℝ) (lane : Fin 2) (i : Fin 4) (V : ℝ) (hV : 0 ≤ V)
    (hvol : (b.primary_osc (lane_slot voice lane i)).osc.is_on = true →
      0 ≤ (b.primary_osc (lane_slot voice lane i)).osc.volume ∧
      (b.primary_osc (lane_slot voice lane i)).osc.volume ≤ V) :
    |b.lane_sample voice bf d lane i| ≤
      if (b.primary_osc (lane_slot voice lane i)).osc.is_on then V else 0 := by
  unfold OscillatorBank.lane_sample simd_sample
  by_cases hon : (b.primary_osc (lane_slot voice lane i)).osc.is_on = true
  · obtain ⟨h0, h1⟩ := hvol hon
    rw [hon]
    simp only [if_true]
    rw [abs_mul]
    calc |Real.cos _| * |(b.primary_osc (lane_slot voice lane i)).osc.volume|
        ≤ 1 * |(b.primary_osc (lane_slot voice lane i)).osc.volume| := by
          apply mul_le_mul_of_nonneg_right (Real.abs_cos_le_one _)
            (abs_nonneg _)
      _ = (b.primary_osc (lane_slot voice lane i)).osc.volume := by
          rw [one_mul, abs_of_nonneg h0]
      _ ≤ V := h1
  · rw [Bool.not_eq_true] at hon
    rw [hon]
    simp

theorem prim_lane_step_bound (b : OscillatorBank) (voice : Fin 10)
    (bf d : ℝ) (lane : Fin 2) (V : ℝ) (hV : 0 ≤ V)
    (hvol : ∀ i : Fin 4,
      (b.primary_osc (lane_slot voice lane i)).osc.is_on = true →
      0 ≤ (b.primary_osc (lane_slot voice lane i)).osc.volume ∧
      (b.primary_osc (lane_slot voice lane i)).osc.volume ≤ V) :
    |(b.prim_lane_step voice bf d lane).2| ≤ V := by
  have e : (b.prim_lane_step voice bf d lane).2 =
      if b.lane_count voice lane = 0 then 0
      else (b.lane_sample voice bf d lane 0 + b.lane_sample voice bf d lane 1
        + b.lane_sample voice bf d lane 2 + b.lane_sample voice bf d lane 3)
        / (b.lane_count voice lane : ℝ) := rfl
  rw [e]
  by_cases hc : b.lane_count voice lane = 0
  · simp [hc, hV]
  · rw [if_neg hc]
    have hb0 := abs_lane_sample_le b voice bf d lane 0 V hV (hvol 0)
    have hb1 := abs_lane_sample_le b voice bf d lane 1 V hV (hvol 1)
    have hb2 := abs_lane_sample_le b voice bf d lane 2 V hV (hvol 2)
    have hb3 := abs_lane_sample_le b voice bf d lane 3 V hV (hvol 3)
    have hsum : |b.lane_sample voice bf d lane 0
        + b.lane_sample voice bf d lane 1 + b.lane_sample voice bf d lane 2
        + b.lane_sample voice bf d lane 3|
        ≤ (b.lane_count voice lane : ℝ) * V := by
      have habs : |b.lane_sample voice bf d lane 0
          + b.lane_sample voice bf d lane 1 + b.lane_sample voice bf d lane 2
          + b.lane_sample voice bf d lane 3|
          ≤ |b.lane_sample voice bf d lane 0|
            + |b.lane_sample voice bf d lane 1|
            + |b.lane_sample voice bf d lane 2|
            + |b.lane_sample voice bf d lane 3| := by
        calc |b.lane_sample voice bf d lane 0 + b.lane_sample voice bf d lane 1
            + b.lane_sample voice bf d lane 2 + b.lane_sample voice bf d lane 3|
            ≤ |b.lane_sample voice bf d lane 0 + b.lane_sample voice bf d lane 1
              + b.lane_sample voice bf d lane 2|
              + |b.lane_sample voice bf d lane 3| := abs_add _ _
          _ ≤ |b.lane_sample voice bf d lane 0
                + b.lane_sample voice bf d lane 1|
              + |b.lane_sample voice bf d lane 2|
              + |b.lane_sample voice bf d lane 3| := by
              have := abs_add (b.lane_sample voice bf d lane 0
                + b.lane_sample voice bf d lane 1)
                (b.lane_sample voice bf d lane 2)
              linarith
          _ ≤ |b.lane_sample voice bf d lane 0|
              + |b.lane_sample voice bf d lane 1|
              + |b.lane_sample voice bf d lane 2|
              + |b.lane_sample voice bf d lane 3| := by
              have := abs_add (b.lane_sample voice bf d lane 0)
                (b.lane_sample voice bf d lane 1)
              linarith
      have hcount : (if (b.primary_osc (lane_slot voice lane 0)).osc.is_on
            then V else 0)
          + (if (b.primary_osc (lane_slot voice lane 1)).osc.is_on then V
            else 0)
          + (if (b.primary_osc (lane_slot voice lane 2)).osc.is_on then V
            else 0)
          + (if (b.primary_osc (lane_slot voice lane 3)).osc.is_on then V
            else 0)
          = (b.lane_count voice lane : ℝ) * V := by
        unfold OscillatorBank.lane_count
        push_cast
        split_ifs <;> ring
      linarith
    have hcpos : (0 : ℝ) < (b.lane_count voice lane : ℝ) := by
      have : 0 < b.lane_count voice lane := Nat.pos_of_ne_zero hc
      exact_mod_cast this
    rw [abs_div, abs_of_pos hcpos, div_le_iff hcpos]
    linarith

theorem prim_lane_step_all_off (b : OscillatorBank) (voice : Fin 10)
    (bf d : ℝ) (lane : Fin 2)
    (h : ∀ i : Fin 4,
      (b.primary_osc (lane_slot voice lane i)).osc.is_on = false) :
    (b.prim_lane_step voice bf d lane).2 = 0 := by
  have e : (b.prim_lane_step voice bf d lane).2 =
      if b.lane_count voice lane = 0 then 0
      else (b.lane_sample voice bf d lane 0 + b.lane_sample voice bf d lane 1
        + b.lane_sample voice bf d lane 2 + b.lane_sample voice bf d lane 3)
        / (b.lane_count voice lane : ℝ) := rfl
  rw [e]
  have hc : b.lane_count voice lane = 0 := by
    unfold OscillatorBank.lane_count
    rw [h 0, h 1, h 2, h 3]
    rfl
  rw [if_pos hc]

/-- C1 (amended): with no active modulators on the voice, each SIMD lane
of 4 primaries normalizes its own partial sum by its own active count, so
the per-voice sample of one `step_simd` is bounded by the **number of
lanes** (2, since `PRIMARY_OSC_COUNT = 8`) times the maximum volume bound
of the active primaries, and is 0 when no primary is active; the bound
`max volume` itself does not hold across lanes. -/
theorem step_simd_no_active_mods_bound (b : OscillatorBank)
    (voice : Fin 10) (base_frequency sample_delta V : ℝ) (hV : 0 ≤ V)
    (hmods : ∀ m : Fin 16,
      (b.modulator_osc (modulator_osc_index voice m)).osc.is_on = false)
    (hvol : ∀ q : Fin 8,
      (b.primary_osc (primary_osc_index voice q)).osc.is_on = true →
      0 ≤ (b.primary_osc (primary_osc_index voice q)).osc.volume ∧
      (b.primary_osc (primary_osc_index voice q)).osc.volume ≤ V) :
    ∃ p : OscillatorBank × ℝ,
      b.step_simd voice base_frequency sample_delta = some p ∧
      |p.2| ≤ 2 * V ∧
      ((∀ q : Fin 8,
        (b.primary_osc (primary_osc_index voice q)).osc.is_on = false) →
        p.2 = 0) := by
  have hoffA : ∀ m : Fin 16,
      ((b.step_mod_phases voice base_frequency sample_delta).modulator_osc
        (modulator_osc_index voice m)).osc.is_on = false := by
    intro m
    rw [step_mod_phases_modulator]
    have hdiv : (modulator_osc_index voice m).val / 16 = voice.val := by
      show (voice.val * 16 + m.val) / 16 = voice.val
      have h2 := m.isLt
      omega
    rw [if_pos hdiv, stepModOsc_osc]
    exact hmods m
  have hw := write_modulations_all_off
    (b.step_mod_phases voice base_frequency sample_delta) voice hoffA
  have hstep : b.step_simd voice base_frequency sample_delta =
      some ((((b.step_mod_phases voice base_frequency
          sample_delta).prim_lane_step voice base_frequency sample_delta
          0).1.prim_lane_step voice base_frequency sample_delta 1).1,
        ((b.step_mod_phases voice base_frequency
          sample_delta).prim_lane_step voice base_frequency sample_delta 0).2
          + (((b.step_mod_phases voice base_frequency
            sample_delta).prim_lane_step voice base_frequency sample_delta
            0).1.prim_lane_step voice base_frequency sample_delta 1).2) := by
    unfold OscillatorBank.step_simd
    show ((b.step_mod_phases voice base_frequency
        sample_delta).write_modulations voice).map _ = _
    rw [hw, Option.map_some']
  have hslot : ∀ (lane : Fin 2) (i : Fin 4),
      lane_slot voice lane i
        = primary_osc_index voice ⟨lane.val * 4 + i.val, by
            have h1 := lane.isLt
            have h2 := i.isLt
            omega⟩ := fun _ _ => rfl
  have hvolA : ∀ (lane : Fin 2) (i : Fin 4),
      ((b.step_mod_phases voice base_frequency sample_delta).primary_osc
        (lane_slot voice lane i)).osc.is_on = true →
      0 ≤ ((b.step_mod_phases voice base_frequency sample_delta).primary_osc
        (lane_slot voice lane i)).osc.volume ∧
      ((b.step_mod_phases voice base_frequency sample_delta).primary_osc
        (lane_slot voice lane i)).osc.volume ≤ V := by
    intro lane i
    rw [step_mod_phases_primary]
    exact hvol ⟨lane.val * 4 + i.val, by
      have h1 := lane.isLt
      have h2 := i.isLt
      omega⟩
  have hbound0 := prim_lane_step_bound
    (b.step_mod_phases voice base_frequency sample_delta) voice
    base_frequency sample_delta 0 V hV (hvolA 0)
  have hvolB : ∀ i : Fin 4,
      ((((b.step_mod_phases voice base_frequency sample_delta).prim_lane_step
        voice base_frequency sample_delta 0).1).primary_osc
        (lane_slot voice 1 i)).osc.is_on = true →
      0 ≤ ((((b.step_mod_phases voice base_frequency
        sample_delta).prim_lane_step voice base_frequency sample_delta
        0).1).primary_osc (lane_slot voice 1 i)).osc.volume ∧
      ((((b.step_mod_phases voice base_frequency
        sample_delta).prim_lane_step voice base_frequency sample_delta
        0).1).primary_osc (lane_slot voice 1 i)).osc.volume ≤ V := by
    intro i
    rw [prim_lane_step_osc]
    exact hvolA 1 i
  have hbound1 := prim_lane_step_bound
    (((b.step_mod_phases voice base_frequency sample_delta).prim_lane_step
      voice base_frequency sample_delta 0).1) voice base_frequency
    sample_delta 1 V hV hvolB
  refine ⟨_, hstep, ?_, ?_⟩
  · calc |_ + _| ≤ |_| + |_| := abs_add _ _
      _ ≤ 2 * V := by linarith
  · intro hq
    have hz0 := prim_lane_step_all_off
      (b.step_mod_phases voice base_frequency sample_delta) voice
      base_frequency sample_delta 0 (by
        intro i
        rw [step_mod_phases_primary]
        exact hq ⟨0 * 4 + i.val, by
          have h2 := i.isLt
          omega⟩)
    have hz1 := prim_lane_step_all_off
      (((b.step_mod_phases voice base_frequency sample_delta).prim_lane_step
        voice base_frequency sample_delta 0).1) voice base_frequency
      sample_delta 1 (by
        intro i
        rw [prim_lane_step_osc, step_mod_phases_primary]
        exact hq ⟨1 * 4 + i.val, by
          have h2 := i.isLt
          omega⟩)
    show _ + _ = (0 : ℝ)
    rw [hz0, hz1, add_zero]

/-- Witness for the amended C1 theorem at the default bank. -/
theorem step_simd_no_active_mods_bound_witness :
    (0 : ℝ) ≤ 0 ∧
    (∀ m : Fin 16, (OscillatorBank.default.modulator_osc
      (modulator_osc_index 0 m)).osc.is_on = false) ∧
    ∃ p : OscillatorBank × ℝ,
      OscillatorBank.default.step_simd 0 440 1 = some p ∧
      |p.2| ≤ 2 * 0 ∧
      ((∀ q : Fin 8, (OscillatorBank.default.primary_osc
        (primary_osc_index 0 q)).osc.is_on = false) → p.2 = 0) :=
  ⟨le_refl 0, (fun _ => rfl),
    step_simd_no_active_mods_bound OscillatorBank.default 0 440 1 0
      (le_refl 0) (fun _ => rfl) (fun _ hq => nomatch hq)⟩

/-- An active unit-volume primary oscillator slot at zero phase. -/
noncomputable def oscOnC1 : Oscillator PrimaryOsc :=
  { Oscillator.mkDefault PrimaryOsc.default with
    osc := { speed_index := 0, volume := 1, is_on := true } }

/-- Concrete bank for the C1 counterexample: voice 0's primaries 0 and 4
(one per SIMD lane) are on with volume 1; everything else is default. -/
noncomputable def bankC1 : OscillatorBank :=
  { OscillatorBank.default with
    primary_osc := fun i =>
      if i.val = 0 ∨ i.val = 4 then oscOnC1
      else Oscillator.mkDefault PrimaryOsc.default }

theorem lane_sample_off (b : OscillatorBank) (voice : Fin 10) (bf d : ℝ)
    (lane : Fin 2) (i : Fin 4)
    (h : (b.primary_osc (lane_slot voice lane i)).osc.is_on = false) :
    b.lane_sample voice bf d lane i = 0 := by
  unfold OscillatorBank.lane_sample simd_sample
  rw [h]
  simp

theorem lane_sample_oscOnC1 (b : OscillatorBank) (voice : Fin 10)
    (lane : Fin 2) (i : Fin 4)
    (h : b.primary_osc (lane_slot voice lane i) = oscOnC1) :
    b.lane_sample voice 0 1 lane i = 1 := by
  unfold OscillatorBank.lane_sample simd_sample stepPrimaryPhase phase_step
  rw [h]
  show Real.cos (fmodf (oscOnC1.phase
      + 1 * (max (oscOnC1.osc.freq 0) 0 * oscOnC1.freq_multiplier) * TWOPI)
      TWOPI + oscOnC1.offset)
      * (if oscOnC1.osc.is_on then oscOnC1.osc.volume else 0) = 1
  have h1 : oscOnC1.osc.freq 0 = 0 := by
    unfold PrimaryOsc.freq
    exact zero_mul _
  have h2 : oscOnC1.phase = 0 := rfl
  have h3 : oscOnC1.offset = 0 := rfl
  have h4 : oscOnC1.osc.is_on = true := rfl
  have h5 : oscOnC1.osc.volume = 1 := rfl
  rw [h1, h2, h3, h4, h5, max_self]
  have h6 : fmodf 0 TWOPI = 0 := by
    unfold fmodf rtrunc
    norm_num
  rw [show (0 : ℝ) + 1 * (0 * oscOnC1.freq_multiplier) * TWOPI = 0 by ring,
    h6]
  norm_num [Real.cos_zero]

/-- C1 counterexample: with two active unit-volume primaries in different
SIMD lanes (slots 0 and 4 of voice 0), no active modulators, zero base
frequency and phases 0, one `step_simd` of the voice yields the sample
`1/1 + 1/1 = 2`, which exceeds the maximum active volume 1: the division
is per SIMD lane, not by the total active-primary count. -/
theorem step_simd_lane_normalization_failure :
    (bankC1.step_simd 0 0 1).map Prod.snd = some 2 ∧
    (bankC1.primary_osc (primary_osc_index 0 0)).osc.is_on = true ∧
    (bankC1.primary_osc (primary_osc_index 0 0)).osc.volume = 1 ∧
    (bankC1.primary_osc (primary_osc_index 0 4)).osc.is_on = true ∧
    (bankC1.primary_osc (primary_osc_index 0 4)).osc.volume = 1 ∧
    (bankC1.primary_osc (primary_osc_index 0 1)).osc.is_on = false ∧
    (bankC1.primary_osc (primary_osc_index 0 2)).osc.is_on = false ∧
    (bankC1.primary_osc (primary_osc_index 0 3)).osc.is_on = false ∧
    (bankC1.primary_osc (primary_osc_index 0 5)).osc.is_on = false ∧
    (bankC1.primary_osc (primary_osc_index 0 6)).osc.is_on = false ∧
    (bankC1.primary_osc (primary_osc_index 0 7)).osc.is_on = false ∧
    bankC1.modulator_osc = OscillatorBank.default.modulator_osc ∧
    ¬ (|(2 : ℝ)| ≤ 1) := by
  refine ⟨?_, rfl, rfl, rfl, rfl, rfl, rfl, rfl, rfl, rfl, rfl, rfl,
    by norm_num⟩
  have hoffA : ∀ m : Fin 16,
      ((bankC1.step_mod_phases 0 0 1).modulator_osc
        (modulator_osc_index 0 m)).osc.is_on = false := by
    intro m
    rw [step_mod_phases_modulator]
    by_cases h : (modulator_osc_index 0 m).val / 16 = (0 : Fin 10).val
    · rw [if_pos h, stepModOsc_osc]
      rfl
    · rw [if_neg h]
      rfl
  have hw := write_modulations_all_off (bankC1.step_mod_phases 0 0 1) 0 hoffA
  have hstep : bankC1.step_simd 0 0 1 =
      some ((((bankC1.step_mod_phases 0 0 1).prim_lane_step 0 0 1
          0).1.prim_lane_step 0 0 1 1).1,
        ((bankC1.step_mod_phases 0 0 1).prim_lane_step 0 0 1 0).2
          + (((bankC1.step_mod_phases 0 0 1).prim_lane_step 0 0 1
            0).1.prim_lane_step 0 0 1 1).2) := by
    unfold OscillatorBank.step_simd
    show ((bankC1.step_mod_phases 0 0 1).write_modulations 0).map _ = _
    rw [hw, Option.map_some']
  rw [hstep, Option.map_some']
  have hc0 : ((bankC1.step_mod_phases 0 0 1).prim_lane_step 0 0 1 0).2
      = 1 := by
    have e : ((bankC1.step_mod_phases 0 0 1).prim_lane_step 0 0 1 0).2 =
        if (bankC1.step_mod_phases 0 0 1).lane_count 0 0 = 0 then 0
        else ((bankC1.step_mod_phases 0 0 1).lane_sample 0 0 1 0 0
          + (bankC1.step_mod_phases 0 0 1).lane_sample 0 0 1 0 1
          + (bankC1.step_mod_phases 0 0 1).lane_sample 0 0 1 0 2
          + (bankC1.step_mod_phases 0 0 1).lane_sample 0 0 1 0 3)
          / ((bankC1.step_mod_phases 0 0 1).lane_count 0 0 : ℝ) := rfl
    rw [e, lane_sample_oscOnC1 _ 0 0 0 rfl, lane_sample_off _ 0 0 1 0 1 rfl,
      lane_sample_off _ 0 0 1 0 2 rfl, lane_sample_off _ 0 0 1 0 3 rfl,
      show (bankC1.step_mod_phases 0 0 1).lane_count 0 0 = 1 from rfl]
    norm_num
  have hc1 : (((bankC1.step_mod_phases 0 0 1).prim_lane_step 0 0 1
      0).1.prim_lane_step 0 0 1 1).2 = 1 := by
    have e : (((bankC1.step_mod_phases 0 0 1).prim_lane_step 0 0 1
        0).1.prim_lane_step 0 0 1 1).2 =
        if ((bankC1.step_mod_phases 0 0 1).prim_lane_step 0 0 1
          0).1.lane_count 0 1 = 0 then 0
        else (((bankC1.step_mod_phases 0 0 1).prim_lane_step 0 0 1
            0).1.lane_sample 0 0 1 1 0
          + ((bankC1.step_mod_phases 0 0 1).prim_lane_step 0 0 1
            0).1.lane_sample 0 0 1 1 1
          + ((bankC1.step_mod_phases 0 0 1).prim_lane_step 0 0 1
            0).1.lane_sample 0 0 1 1 2
          + ((bankC1.step_mod_phases 0 0 1).prim_lane_step 0 0 1
            0).1.lane_sample 0 0 1 1 3)
          / (((bankC1.step_mod_phases 0 0 1).prim_lane_step 0 0 1
            0).1.lane_count 0 1 : ℝ) := rfl
    rw [e, lane_sample_oscOnC1 _ 0 1 0 rfl, lane_sample_off _ 0 0 1 1 1 rfl,
      lane_sample_off _ 0 0 1 1 2 rfl, lane_sample_off _ 0 0 1 1 3 rfl,
      show ((bankC1.step_mod_phases 0 0 1).prim_lane_step 0 0 1
        0).1.lane_count 0 1 = 1 from rfl]
    norm_num
  exact congrArg some
    (show ((bankC1.step_mod_phases 0 0 1).prim_lane_step 0 0 1 0).2
        + (((bankC1.step_mod_phases 0 0 1).prim_lane_step 0 0 1
          0).1.prim_lane_step 0 0 1 1).2 = 2 from by
      rw [hc0, hc1]
      norm_num)

/-! ## C4: the phase range invariant -/

theorem TWOPI_pos : 0 < TWOPI := by
  unfold TWOPI
  positivity

theorem fmodf_nonneg_lt (x y : ℝ) (hx : 0 ≤ x) (hy : 0 < y) :
    0 ≤ fmodf x y ∧ fmodf x y < y := by
  unfold fmodf rtrunc
  rw [if_pos (div_nonneg hx hy.le)]
  have hrw : x - y * (⌊x / y⌋ : ℝ) = y * Int.fract (x / y) := by
    unfold Int.fract
    have : y * (x / y) = x := mul_div_cancel₀ x hy.ne' ▸ by
      rw [mul_comm, div_mul_cancel₀]
      exact hy.ne'
    rw [mul_sub, this]
  rw [hrw]
  constructor
  · exact mul_nonneg hy.le (Int.fract_nonneg _)
  · calc y * Int.fract (x / y) < y * 1 :=
        (mul_lt_mul_left hy).mpr (Int.fract_lt_one _)
      _ = y := mul_one y

theorem phase_step_range (base multiplier current_phase d_sec : ℝ)
    (hb : 0 ≤ base) (hm : 0 ≤ multiplier) (hp : 0 ≤ current_phase)
    (hd : 0 ≤ d_sec) :
    0 ≤ phase_step base multiplier current_phase d_sec ∧
    phase_step base multiplier current_phase d_sec < TWOPI := by
  unfold phase_step
  apply fmodf_nonneg_lt _ _ ?_ TWOPI_pos
  have : 0 ≤ d_sec * (base * multiplier) * TWOPI :=
    mul_nonneg (mul_nonneg hd (mul_nonneg hb hm)) TWOPI_pos.le
  linarith

theorem freq_multiplier_nonneg {S : Type} (o : Oscillator S)
    (h : 0 ≤ o.mod_multiplier) : 0 ≤ o.freq_multiplier := by
  unfold Oscillator.freq_multiplier
  split
  · norm_num
  · exact div_nonneg h (Nat.cast_nonneg _)

/-- The per-slot runtime invariant: nonnegative accumulated modulation
and a phase inside `[0, TWOPI)`. -/
def OscInv {S : Type} (o : Oscillator S) : Prop :=
  0 ≤ o.mod_multiplier ∧ 0 ≤ o.phase ∧ o.phase < TWOPI

/-- The bank invariant: every slot satisfies `OscInv` and every
modulator's range lies in `[0, 1]` (the §3 data-model bound). -/
def BankInv (b : OscillatorBank) : Prop :=
  (∀ i : Fin 80, OscInv (b.primary_osc i)) ∧
  (∀ i : Fin 160, OscInv (b.modulator_osc i) ∧
    0 ≤ (b.modulator_osc i).osc.range ∧ (b.modulator_osc i).osc.range ≤ 1)

theorem bank_inv_default : BankInv OscillatorBank.default := by
  refine ⟨fun i => ⟨?_, ?_, ?_⟩, fun i => ⟨⟨?_, ?_, ?_⟩, ?_, ?_⟩⟩ <;>
    first
      | exact zero_le_one
      | exact le_refl 0
      | exact TWOPI_pos
      | norm_num

theorem stepModOsc_inv (mt : ModulationType) (bf d : ℝ) (hd : 0 ≤ d)
    (o : Oscillator ModulatorOsc) (h : OscInv o) :
    OscInv (stepModOsc mt bf d o) := by
  obtain ⟨h1, h2, h3⟩ := h
  refine ⟨le_refl 0, ?_⟩
  unfold stepModOsc
  cases mt <;>
    exact (phase_step_range _ _ _ _ (le_max_right _ 0)
      (freq_multiplier_nonneg o h1) h2 hd).imp id id

theorem step_mod_phases_inv (b : OscillatorBank) (voice : Fin 10)
    (bf d : ℝ) (hd : 0 ≤ d) (h : BankInv b) :
    BankInv (b.step_mod_phases voice bf d) := by
  obtain ⟨hp, hm⟩ := h
  refine ⟨hp, ?_⟩
  intro i
  rw [step_mod_phases_modulator]
  split
  · exact ⟨stepModOsc_inv _ _ _ hd _ (hm i).1,
      (hm i).2.1, (hm i).2.2⟩
  · exact hm i

theorem modPhaseSample_nonneg (o : Oscillator ModulatorOsc)
    (h0 : 0 ≤ o.osc.range) (h1 : o.osc.range ≤ 1) :
    0 ≤ modPhaseSample o := by
  unfold modPhaseSample simd_sample
  have hcos := Real.neg_one_le_cos (o.phase + o.offset)
  have hcos2 := Real.cos_le_one (o.phase + o.offset)
  by_cases hon : o.osc.is_on = true
  · rw [hon]
    simp only [if_true]
    nlinarith
  · rw [Bool.not_eq_true] at hon
    rw [hon]
    simp

theorem addModulation_inv {S : Type} (o : Oscillator S) (v : ℝ)
    (h : OscInv o) (hv : 0 ≤ v) : OscInv (addModulation o v) :=
  ⟨by
    have := h.1
    show 0 ≤ o.mod_multiplier + v
    linarith, h.2.1, h.2.2⟩

theorem write_mod_step_inv (b : OscillatorBank) (voice : Fin 10)
    (m : Fin 16) (b1 : OscillatorBank)
    (heq : b.write_mod_step voice m = some b1) (h : BankInv b) :
    BankInv b1 := by
  obtain ⟨hp, hm⟩ := h
  unfold OscillatorBank.write_mod_step at heq
  by_cases hon : (b.modulator_osc (modulator_osc_index voice m)).osc.is_on
      = true
  · simp only [hon, if_true] at heq
    have hsample : 0 ≤ modPhaseSample
        (b.modulator_osc (modulator_osc_index voice m)) :=
      modPhaseSample_nonneg _ (hm _).2.1 (hm _).2.2
    cases hpar : (b.modulator_osc
        (modulator_osc_index voice m)).osc.parent_osc_slot with
    | Primary pid =>
      rw [hpar] at heq
      dsimp only at heq
      by_cases hflat : voice.val * 8 + pid < 80
      · rw [dif_pos hflat, Option.some_inj] at heq
        subst heq
        refine ⟨?_, hm⟩
        intro i
        show OscInv (if i = (⟨voice.val * 8 + pid, hflat⟩ : Fin 80) then _
          else b.primary_osc i)
        split
        · exact addModulation_inv _ _ (hp _) hsample
        · exact hp i
      · rw [dif_neg hflat] at heq
        exact Option.noConfusion heq
    | Modulator mid =>
      rw [hpar] at heq
      dsimp only at heq
      by_cases hflat : voice.val * 16 + mid < 160
      · rw [dif_pos hflat, Option.some_inj] at heq
        subst heq
        refine ⟨hp, ?_⟩
        intro i
        show OscInv (if i = (⟨voice.val * 16 + mid, hflat⟩ : Fin 160) then
            addModulation (b.modulator_osc i)
              (modPhaseSample (b.modulator_osc (modulator_osc_index voice m)))
          else b.modulator_osc i) ∧
          0 ≤ ((if i = (⟨voice.val * 16 + mid, hflat⟩ : Fin 160) then
            addModulation (b.modulator_osc i)
              (modPhaseSample (b.modulator_osc (modulator_osc_index voice m)))
          else b.modulator_osc i)).osc.range ∧
          ((if i = (⟨voice.val * 16 + mid, hflat⟩ : Fin 160) then
            addModulation (b.modulator_osc i)
              (modPhaseSample (b.modulator_osc (modulator_osc_index voice m)))
          else b.modulator_osc i)).osc.range ≤ 1
        split
        · exact ⟨addModulation_inv _ _ (hm _).1 hsample,
            (hm i).2.1, (hm i).2.2⟩
        · exact hm i
      · rw [dif_neg hflat] at heq
        exact Option.noConfusion heq
  · rw [Bool.not_eq_true] at hon
    simp only [hon, Bool.false_eq_true, if_false, Option.some_inj] at heq
    subst heq
    exact ⟨hp, hm⟩

theorem write_fold_inv (voice : Fin 10) (l : List (Fin 16)) :
    ∀ (b b' : OscillatorBank),
      l.foldl (fun ob m => ob.bind (fun b2 => b2.write_mod_step voice m))
        (some b) = some b' → BankInv b → BankInv b' := by
  induction l with
  | nil =>
    intro b b' heq h
    rw [List.foldl_nil, Option.some_inj] at heq
    exact heq ▸ h
  | cons m l ih =>
    intro b b' heq h
    rw [List.foldl_cons] at heq
    cases hs : b.write_mod_step voice m with
    | none =>
      rw [Option.some_bind, hs] at heq
      have : ∀ l2 : List (Fin 16), l2.foldl
          (fun ob m2 => ob.bind
            (fun b2 : OscillatorBank => b2.write_mod_step voice m2))
          none = none := by
        intro l2
        induction l2 with
        | nil => rfl
        | cons m2 l2 ih2 =>
          rw [List.foldl_cons, Option.none_bind]
          exact ih2
      rw [this l] at heq
      exact Option.noConfusion heq
    | some b1 =>
      rw [Option.some_bind, hs] at heq
      exact ih b1 b' heq (write_mod_step_inv b voice m b1 hs h)

theorem stepPrimaryPhase_range (bf d : ℝ) (hd : 0 ≤ d)
    (o : Oscillator PrimaryOsc) (h : OscInv o) :
    0 ≤ stepPrimaryPhase bf d o ∧ stepPrimaryPhase bf d o < TWOPI := by
  unfold stepPrimaryPhase
  exact phase_step_range _ _ _ _ (le_max_right _ 0)
    (freq_multiplier_nonneg o h.1) h.2.1 hd

theorem prim_lane_step_inv (b : OscillatorBank) (voice : Fin 10)
    (bf d : ℝ) (hd : 0 ≤ d) (lane : Fin 2) (h : BankInv b) :
    BankInv (b.prim_lane_step voice bf d lane).1 := by
  obtain ⟨hp, hm⟩ := h
  refine ⟨?_, hm⟩
  intro i
  show OscInv (if i.val / 8 = voice.val ∧ (i.val % 8) / 4 = lane.val then _
    else b.primary_osc i)
  split
  · exact ⟨zero_le_one, (stepPrimaryPhase_range bf d hd _ (hp i)).1,
      (stepPrimaryPhase_range bf d hd _ (hp i)).2⟩
  · exact hp i

theorem step_simd_inv (b : OscillatorBank) (voice : Fin 10) (bf d : ℝ)
    (hd : 0 ≤ d) (p : OscillatorBank × ℝ)
    (heq : b.step_simd voice bf d = some p) (h : BankInv b) :
    BankInv p.1 := by
  unfold OscillatorBank.step_simd at heq
  cases hw : (b.step_mod_phases voice bf d).write_modulations voice with
  | none =>
    simp only [hw, Option.map_none'] at heq
    exact Option.noConfusion heq
  | some bB =>
    simp only [hw, Option.map_some', Option.some_inj] at heq
    have hinvB : BankInv bB := by
      unfold OscillatorBank.write_modulations at hw
      exact write_fold_inv voice (List.finRange 16) _ bB hw
        (step_mod_phases_inv b voice bf d hd ⟨h.1, h.2⟩)
    have h0 := prim_lane_step_inv bB voice bf d hd 0 hinvB
    have h1 := prim_lane_step_inv
      ((bB.prim_lane_step voice bf d 0).1) voice bf d hd 1 h0
    rw [← heq]
    exact h1

theorem voice_loop_fold_inv (voices : Fin 10 → OscVoiceState) (d : ℝ)
    (hd : 0 ≤ d) (t : ℚ) (l : List (Fin 10)) :
    ∀ p p' : OscillatorBank × ℝ,
      l.foldl (fun acc v => acc.bind (fun p2 =>
        if (voices v).state.is_off then some p2
        else
          (p2.1.step_simd v (voices v).freq d).map (fun q =>
            (q.1, p2.2 + q.2 * (((voices v).env.sample t : ℚ) : ℝ)))))
        (some p) = some p' →
      BankInv p.1 → BankInv p'.1 := by
  induction l with
  | nil =>
    intro p p' heq h
    rw [List.foldl_nil, Option.some_inj] at heq
    exact heq ▸ h
  | cons v l ih =>
    intro p p' heq h
    rw [List.foldl_cons, Option.some_bind] at heq
    by_cases hoff : (voices v).state.is_off = true
    · rw [if_pos hoff] at heq
      exact ih p p' heq h
    · rw [if_neg hoff] at heq
      cases hs : p.1.step_simd v (voices v).freq d with
      | none =>
        rw [hs, Option.map_none'] at heq
        have hnone : ∀ l2 : List (Fin 10), l2.foldl
            (fun acc v2 => acc.bind (fun p2 : OscillatorBank × ℝ =>
              if (voices v2).state.is_off then some p2
              else
                (p2.1.step_simd v2 (voices v2).freq d).map (fun q =>
                  (q.1, p2.2 + q.2 * (((voices v2).env.sample t : ℚ) : ℝ)))))
            none = none := by
          intro l2
          induction l2 with
          | nil => rfl
          | cons v2 l2 ih2 =>
            rw [List.foldl_cons, Option.none_bind]
            exact ih2
        rw [hnone l] at heq
        exact Option.noConfusion heq
      | some q =>
        rw [hs, Option.map_some'] at heq
        exact ih _ p' heq (step_simd_inv p.1 v (voices v).freq d hd q hs h)

theorem process_voice_loop_inv (b : OscillatorBank)
    (voices : Fin 10 → OscVoiceState) (d : ℝ) (hd : 0 ≤ d) (t : ℚ)
    (p' : OscillatorBank × ℝ)
    (heq : b.process_voice_loop voices d t = some p') (h : BankInv b) :
    BankInv p'.1 := by
  unfold OscillatorBank.process_voice_loop at heq
  exact voice_loop_fold_inv voices d hd t (List.finRange 10) (b, 0) p' heq h

theorem process_samples_inv (voices : Fin 10 → OscVoiceState)
    (delta : ℚ) (hd : 0 ≤ ((delta : ℚ) : ℝ)) :
    ∀ (n : ℕ) (t : ℚ) (b : OscillatorBank) (r : OscillatorBank × List ℝ),
      b.process_samples voices delta t n = some r → BankInv b →
      BankInv r.1 := by
  intro n
  induction n with
  | zero =>
    intro t b r heq h
    unfold OscillatorBank.process_samples at heq
    rw [Option.some_inj] at heq
    exact heq ▸ h
  | succ n ih =>
    intro t b r heq h
    unfold OscillatorBank.process_samples at heq
    cases hv : b.process_voice_loop voices ((delta : ℚ) : ℝ) t with
    | none =>
      rw [hv, Option.none_bind] at heq
      exact Option.noConfusion heq
    | some p =>
      rw [hv, Option.some_bind] at heq
      cases hr : p.1.process_samples voices delta (t + delta) n with
      | none =>
        rw [hr, Option.map_none'] at heq
        exact Option.noConfusion heq
      | some r2 =>
        rw [hr, Option.map_some', Option.some_inj] at heq
        have h2 := ih (t + delta) p.1 r2 hr
          (process_voice_loop_inv b voices _ hd t p hv h)
        rw [← heq]
        exact h2

theorem process_inv (b : OscillatorBank) (voices : Fin 10 → OscVoiceState)
    (sample_rate : ℚ) (hrate : 0 < sample_rate) (n : ℕ) (t : ℚ)
    (r : OscillatorBank × List ℝ)
    (heq : b.process voices sample_rate n t = some r) (h : BankInv b) :
    BankInv r.1 := by
  unfold OscillatorBank.process at heq
  exact process_samples_inv voices (1 / sample_rate)
    (by
      push_cast
      positivity) n t b r heq h

/-- The §3 data-model bound on snapshots: every modulator entry's range
is in `[0, 1]` (the topology editor clamps it there). -/
def ValidSnapshot (snap : SolarState) : Prop :=
  ∀ e ∈ snap.modulator_states, 0 ≤ e.state.range ∧ e.state.range ≤ 1

theorem lastSlotMod_mem (l : List ModulatorState) (line : ℕ)
    (e : ModulatorState) (h : lastSlotMod l line = some e) : e ∈ l := by
  unfold lastSlotMod at h
  have hmem : e ∈ (l.filter (fun e2 => decide (e2.slot = line))).getLast? := by
    rw [h]
    rfl
  obtain ⟨hne, hg⟩ := List.mem_getLast?_eq_getLast hmem
  rw [hg]
  exact List.mem_of_mem_filter (List.getLast_mem hne)

theorem on_state_change_inv (b : OscillatorBank) (snap : SolarState)
    (h : BankInv b) (hv : ValidSnapshot snap) :
    BankInv (b.on_state_change snap) := by
  obtain ⟨hp, hm⟩ := h
  have hdef : b.on_state_change snap =
      snap.modulator_states.foldl
        (fun bb p2 => bb.on_modulator_osc_line p2.slot
          (fun o => { o with offset := p2.offset, osc := p2.state }))
        (snap.primary_states.foldl
          (fun bb p2 => bb.on_primary_osc_line p2.slot
            (fun o => { o with offset := p2.offset, osc := p2.state }))
          { b with
            primary_osc := fun i =>
              let o := b.primary_osc i
              { o with osc := { o.osc with is_on := false } },
            modulator_osc := fun i =>
              let o := b.modulator_osc i
              { o with osc := { o.osc with is_on := false } } }) := rfl
  constructor
  · intro i
    rw [hdef, foldl_mod_primary, foldl_prim_apply]
    cases lastSlotPrim snap.primary_states (i.val % 8) with
    | some e => exact ⟨(hp i).1, (hp i).2.1, (hp i).2.2⟩
    | none => exact ⟨(hp i).1, (hp i).2.1, (hp i).2.2⟩
  · intro i
    rw [hdef, foldl_mod_apply, foldl_prim_modulator]
    cases he : lastSlotMod snap.modulator_states (i.val % 16) with
    | some e =>
      have hrange := hv e (lastSlotMod_mem _ _ _ he)
      exact ⟨⟨(hm i).1.1, (hm i).1.2.1, (hm i).1.2.2⟩,
        hrange.1, hrange.2⟩
    | none =>
      exact ⟨⟨(hm i).1.1, (hm i).1.2.1, (hm i).1.2.2⟩,
        (hm i).2.1, (hm i).2.2⟩

theorem reset_voice_inv (b : OscillatorBank) (voice : Fin 10)
    (h : BankInv b) : BankInv (b.reset_voice voice) := by
  obtain ⟨hp, hm⟩ := h
  constructor
  · intro i
    show OscInv (if i.val / 8 = voice.val then
      { b.primary_osc i with phase := 0 } else b.primary_osc i)
    split
    · exact ⟨(hp i).1, le_refl 0, TWOPI_pos⟩
    · exact hp i
  · intro i
    show OscInv (if i.val / 16 = voice.val then
        { b.modulator_osc i with phase := 0 } else b.modulator_osc i) ∧
      0 ≤ ((if i.val / 16 = voice.val then
        { b.modulator_osc i with phase := 0 }
        else b.modulator_osc i)).osc.range ∧
      ((if i.val / 16 = voice.val then
        { b.modulator_osc i with phase := 0 }
        else b.modulator_osc i)).osc.range ≤ 1
    split
    · exact ⟨⟨(hm i).1.1, le_refl 0, TWOPI_pos⟩, (hm i).2.1, (hm i).2.2⟩
    · exact hm i

/-- The bank states reachable from the default bank by processing audio
(with positive sample rates), applying valid topology snapshots,
resetting voices, and flipping the modulation/gain/reset-phase settings
(the `ComMsg` message kinds). -/
inductive BankReach : OscillatorBank → Prop where
  | default : BankReach OscillatorBank.default
  | process (b b' : OscillatorBank) (voices : Fin 10 → OscVoiceState)
      (sample_rate : ℚ) (n : ℕ) (t : ℚ) (outs : List ℝ) :
      BankReach b → 0 < sample_rate →
      b.process voices sample_rate n t = some (b', outs) → BankReach b'
  | state_change (b : OscillatorBank) (snap : SolarState) :
      BankReach b → ValidSnapshot snap → BankReach (b.on_state_change snap)
  | reset (b : OscillatorBank) (voice : Fin 10) :
      BankReach b → BankReach (b.reset_voice voice)
  | set_mod_ty (b : OscillatorBank) (mt : ModulationType) :
      BankReach b → BankReach { b with mod_ty := mt }
  | set_gain_ty (b : OscillatorBank) (gt : GainType) :
      BankReach b → BankReach { b with gain_ty := gt }
  | set_reset_phase (b : OscillatorBank) (rp : Bool) :
      BankReach b → BankReach { b with reset_phase := rp }

theorem bank_reach_inv (b : OscillatorBank) (h : BankReach b) :
    BankInv b := by
  induction h with
  | default => exact bank_inv_default
  | process b0 b' voices sample_rate n t outs _ hrate heq ih =>
    exact process_inv b0 voices sample_rate hrate n t (b', outs) heq ih
  | state_change b0 snap _ hv ih => exact on_state_change_inv b0 snap ih hv
  | reset b0 voice _ ih => exact reset_voice_inv b0 voice ih
  | set_mod_ty b0 mt _ ih => exact ⟨ih.1, ih.2⟩
  | set_gain_ty b0 gt _ ih => exact ⟨ih.1, ih.2⟩
  | set_reset_phase b0 rp _ ih => exact ⟨ih.1, ih.2⟩

/-- C4 (amended): starting from the default bank, any finite sequence of
`process` calls (positive sample rates), topology snapshots with
modulator ranges inside the data-model bound `[0, 1]`, voice resets and
setting changes keeps every oscillator phase in `[0, 2π)`.  Without the
range bound the invariant fails (a range outside `[0, 1]` makes the
frequency multiplier negative and `fmodf` then yields a negative
phase). -/
theorem bank_reach_phase_range (b : OscillatorBank) (h : BankReach b) :
    (∀ i : Fin 80,
      0 ≤ (b.primary_osc i).phase ∧ (b.primary_osc i).phase < TWOPI) ∧
    (∀ i : Fin 160,
      0 ≤ (b.modulator_osc i).phase ∧ (b.modulator_osc i).phase < TWOPI) := by
  have hinv := bank_reach_inv b h
  exact ⟨fun i => ⟨(hinv.1 i).2.1, (hinv.1 i).2.2⟩,
    fun i => ⟨(hinv.2 i).1.2.1, (hinv.2 i).1.2.2⟩⟩

/-- Witness for the amended C4 theorem at the default bank. -/
theorem bank_reach_phase_range_witness :
    BankReach OscillatorBank.default ∧
    (0 ≤ (OscillatorBank.default.primary_osc 0).phase ∧
      (OscillatorBank.default.primary_osc 0).phase < TWOPI) ∧
    (0 ≤ (OscillatorBank.default.modulator_osc 0).phase ∧
      (OscillatorBank.default.modulator_osc 0).phase < TWOPI) :=
  ⟨BankReach.default,
    (bank_reach_phase_range OscillatorBank.default BankReach.default).1 0,
    (bank_reach_phase_range OscillatorBank.default BankReach.default).2 0⟩

/-! ## C4 counterexample: a modulator range outside [0,1] drives a
phase negative through one `process` call. -/

theorem foldl_write_all_off (voice : Fin 10) (l : List (Fin 16))
    (b : OscillatorBank)
    (h : ∀ m ∈ l,
      (b.modulator_osc (modulator_osc_index voice m)).osc.is_on = false) :
    l.foldl (fun ob m => ob.bind (fun b2 => b2.write_mod_step voice m))
      (some b) = some b := by
  induction l with
  | nil => rfl
  | cons m l ih =>
    simp only [List.foldl_cons, Option.some_bind]
    rw [write_mod_step_off b voice m (h m (List.mem_cons_self m l))]
    exact ih (fun m2 hm2 => h m2 (List.mem_cons_of_mem _ hm2))

theorem voice_fold_skip (voices : Fin 10 → OscVoiceState) (d : ℝ) (t : ℚ)
    (l : List (Fin 10)) (p : OscillatorBank × ℝ)
    (h : ∀ v ∈ l, (voices v).state.is_off = true) :
    l.foldl (fun acc v => acc.bind (fun p2 =>
      if (voices v).state.is_off then some p2
      else
        (p2.1.step_simd v (voices v).freq d).map (fun q =>
          (q.1, p2.2 + q.2 * (((voices v).env.sample t : ℚ) : ℝ)))))
      (some p) = some p := by
  induction l with
  | nil => rfl
  | cons v l ih =>
    simp only [List.foldl_cons, Option.some_bind]
    rw [h v (List.mem_cons_self v l)]
    simp only [if_true]
    exact ih (fun v2 hv2 => h v2 (List.mem_cons_of_mem _ hv2))

/-- The C4 counterexample modulator: parent primary 0, relative speed 0,
and a modulation range of 3, outside the `[0, 1]` data-model bound. -/
noncomputable def modOscC4 : ModulatorOsc :=
  { parent_osc_slot := ParentIndex.Primary 0, is_on := true,
    range := 3, speed_index := 0 }

/-- The snapshot placing `modOscC4` on modulator line 0. -/
noncomputable def snapC4 : SolarState :=
  { primary_states := [],
    modulator_states := [{ offset := 0, state := modOscC4, slot := 0 }] }

/-- The counterexample bank: the default bank after applying `snapC4`. -/
noncomputable def bankC4 : OscillatorBank :=
  OscillatorBank.default.on_state_change snapC4

/-- One active voice playing 220 Hz; all others off. -/
noncomputable def voicesC4 : Fin 10 → OscVoiceState :=
  fun v =>
    if v = 0 then
      { env := Envelope.default, state := VoiceState.On, note := 0,
        freq := 220 }
    else OscVoiceState.default

theorem pi_div_twopi : Real.pi / TWOPI = 1 / 2 := by
  unfold TWOPI
  rw [div_eq_iff (by positivity)]
  ring

theorem floor_half : ⌊(1 / 2 : ℝ)⌋ = 0 :=
  Int.floor_eq_zero_iff.mpr (by constructor <;> norm_num)

theorem fmodf_pi_twopi : fmodf Real.pi TWOPI = Real.pi := by
  unfold fmodf rtrunc
  rw [pi_div_twopi, if_pos (by norm_num), floor_half]
  norm_num

theorem fmodf_neg_pi_twopi : fmodf (-Real.pi) TWOPI = -Real.pi := by
  unfold fmodf rtrunc
  have hdiv : -Real.pi / TWOPI = -(1 / 2) := by
    rw [neg_div, pi_div_twopi]
  rw [hdiv, if_neg (by norm_num), neg_neg, floor_half]
  norm_num

theorem ddC4_eq : ((1 / 440 : ℚ) : ℝ) = 1 / 440 := by
  push_cast
  ring

/-- The bank after the first (modulator phase step) loop of the
counterexample step. -/
noncomputable def bAC4 : OscillatorBank :=
  bankC4.step_mod_phases 0 220 ((1 / 440 : ℚ) : ℝ)

/-- The bank after the modulator-to-parent write loop of the
counterexample step: primary slot 0 has received the modulation value. -/
noncomputable def bankC4B : OscillatorBank :=
  { bAC4 with
    primary_osc := fun i =>
      if i = (⟨0, by norm_num⟩ : Fin 80) then
        addModulation (bAC4.primary_osc i)
          (modPhaseSample (bAC4.modulator_osc (modulator_osc_index 0 0)))
      else bAC4.primary_osc i }

/-- The phase of voice 0's primary slot 0 after one 1-sample `process`
call on the counterexample bank. -/
noncomputable def c4phase : Option ℝ :=
  (bankC4.process voicesC4 440 1 0).map
    (fun pr => (pr.1.primary_osc (primary_osc_index 0 0)).phase)

theorem bAC4_mod0_phase :
    (bAC4.modulator_osc (modulator_osc_index 0 0)).phase = Real.pi := by
  show phase_step (max (modOscC4.freq 220) 0) 1 0 ((1 / 440 : ℚ) : ℝ)
    = Real.pi
  have hfreq : modOscC4.freq 220 = 220 := by
    unfold ModulatorOsc.freq modOscC4
    norm_num [Real.rpow_zero]
  unfold phase_step
  rw [hfreq, max_eq_left (by norm_num : (0 : ℝ) ≤ 220), ddC4_eq]
  have harg : (0 : ℝ) + 1 / 440 * (220 * 1) * TWOPI = Real.pi := by
    unfold TWOPI
    ring
  rw [harg, fmodf_pi_twopi]

theorem bAC4_sample :
    modPhaseSample (bAC4.modulator_osc (modulator_osc_index 0 0)) = -2 := by
  unfold modPhaseSample simd_sample
  rw [show (bAC4.modulator_osc (modulator_osc_index 0 0)).osc = modOscC4
      from rfl,
    show (bAC4.modulator_osc (modulator_osc_index 0 0)).offset = 0 from rfl,
    bAC4_mod0_phase,
    show (if modOscC4.is_on = true then modOscC4.range else 0) = 3 from rfl,
    add_zero, Real.cos_pi]
  norm_num

theorem bAC4_write : bAC4.write_modulations 0 = some bankC4B := by
  unfold OscillatorBank.write_modulations
  rw [show List.finRange 16 = 0 :: [1, 2, 3, 4, 5, 6, 7, 8, 9, 10, 11, 12,
    13, 14, 15] from by decide, List.foldl_cons]
  rw [show ((some bAC4).bind
      (fun b2 : OscillatorBank => b2.write_mod_step 0 0)) = some bankC4B
    from rfl]
  exact foldl_write_all_off 0 _ bankC4B (by
    intro m hm
    fin_cases hm <;> rfl)

theorem bankC4_step :
    bankC4.step_simd 0 220 ((1 / 440 : ℚ) : ℝ) =
      some (((bankC4B.prim_lane_step 0 220 ((1 / 440 : ℚ) : ℝ)
          0).1.prim_lane_step 0 220 ((1 / 440 : ℚ) : ℝ) 1).1,
        (bankC4B.prim_lane_step 0 220 ((1 / 440 : ℚ) : ℝ) 0).2
          + ((bankC4B.prim_lane_step 0 220 ((1 / 440 : ℚ) : ℝ)
            0).1.prim_lane_step 0 220 ((1 / 440 : ℚ) : ℝ) 1).2) := by
  unfold OscillatorBank.step_simd
  show (bAC4.write_modulations 0).map _ = _
  rw [bAC4_write, Option.map_some']

theorem bankC4B_fm :
    (bankC4B.primary_osc (primary_osc_index 0 0)).freq_multiplier = -1 := by
  show (if (1 : ℕ) = 0 then (1 : ℝ)
    else (1 + modPhaseSample (bAC4.modulator_osc (modulator_osc_index 0 0)))
      / ((1 : ℕ) : ℝ)) = -1
  rw [if_neg (by norm_num), bAC4_sample]
  norm_num

theorem bankC4B_phase0 :
    stepPrimaryPhase 220 ((1 / 440 : ℚ) : ℝ)
      (bankC4B.primary_osc (primary_osc_index 0 0)) = -Real.pi := by
  unfold stepPrimaryPhase phase_step
  rw [bankC4B_fm,
    show (bankC4B.primary_osc (primary_osc_index 0 0)).phase = 0 from rfl,
    show max ((bankC4B.primary_osc
        (primary_osc_index 0 0)).osc.freq 220) 0 = 220 from by
      rw [show (bankC4B.primary_osc (primary_osc_index 0 0)).osc
          = PrimaryOsc.default from rfl]
      unfold PrimaryOsc.freq PrimaryOsc.default
      norm_num [Real.rpow_zero],
    ddC4_eq]
  have harg : (0 : ℝ) + 1 / 440 * (220 * -1) * TWOPI = -Real.pi := by
    unfold TWOPI
    ring
  rw [harg, fmodf_neg_pi_twopi]

theorem c4_final_phase :
    ((((bankC4B.prim_lane_step 0 220 ((1 / 440 : ℚ) : ℝ)
        0).1.prim_lane_step 0 220 ((1 / 440 : ℚ) : ℝ) 1).1).primary_osc
      (primary_osc_index 0 0)).phase = -Real.pi := by
  have hlane1 : ((((bankC4B.prim_lane_step 0 220 ((1 / 440 : ℚ) : ℝ)
      0).1.prim_lane_step 0 220 ((1 / 440 : ℚ) : ℝ) 1).1).primary_osc
      (primary_osc_index 0 0))
      = (((bankC4B.prim_lane_step 0 220 ((1 / 440 : ℚ) : ℝ) 0).1).primary_osc
        (primary_osc_index 0 0)) := rfl
  have hlane0 : (((bankC4B.prim_lane_step 0 220 ((1 / 440 : ℚ) : ℝ)
      0).1).primary_osc (primary_osc_index 0 0))
      = { bankC4B.primary_osc (primary_osc_index 0 0) with
          phase := stepPrimaryPhase 220 ((1 / 440 : ℚ) : ℝ)
            (bankC4B.primary_osc (primary_osc_index 0 0)),
          mod_counter := 0,
          mod_multiplier := 1 } := rfl
  rw [hlane1, hlane0]
  exact bankC4B_phase0

/-- C4 counterexample: starting from the default bank, one topology
snapshot placing a modulator with range 3 on line 0 (parent primary 0)
followed by a single 1-sample `process` call at sample rate 440 with one
active voice at 220 Hz leaves voice 0's primary slot 0 with phase `-π`,
outside `[0, 2π)`. -/
theorem process_phase_escapes_range :
    c4phase = some (-Real.pi) ∧ ¬ (0 ≤ -Real.pi) := by
  constructor
  · unfold c4phase OscillatorBank.process
    have e1 : bankC4.process_samples voicesC4 (1 / 440) 0 1 =
        (bankC4.process_voice_loop voicesC4 ((1 / 440 : ℚ) : ℝ) 0).bind
          (fun p =>
            (p.1.process_samples voicesC4 (1 / 440) (0 + 1 / 440) 0).map
              (fun r => (r.1, bankC4.gain_ty.map p.2 :: r.2))) := rfl
    rw [e1]
    have hvl : bankC4.process_voice_loop voicesC4 ((1 / 440 : ℚ) : ℝ) 0 =
        some (((bankC4B.prim_lane_step 0 220 ((1 / 440 : ℚ) : ℝ)
            0).1.prim_lane_step 0 220 ((1 / 440 : ℚ) : ℝ) 1).1,
          0 + ((bankC4B.prim_lane_step 0 220 ((1 / 440 : ℚ) : ℝ) 0).2
            + ((bankC4B.prim_lane_step 0 220 ((1 / 440 : ℚ) : ℝ)
              0).1.prim_lane_step 0 220 ((1 / 440 : ℚ) : ℝ) 1).2)
            * (((voicesC4 0).env.sample 0 : ℚ) : ℝ)) := by
      unfold OscillatorBank.process_voice_loop
      rw [show List.finRange 10 = 0 :: [1, 2, 3, 4, 5, 6, 7, 8, 9]
        from by decide, List.foldl_cons]
      simp only [Option.some_bind]
      rw [show (voicesC4 0).state.is_off = false from rfl]
      simp only [Bool.false_eq_true, if_false]
      rw [show (voicesC4 0).freq = 220 from rfl, bankC4_step,
        Option.map_some']
      exact voice_fold_skip voicesC4 ((1 / 440 : ℚ) : ℝ) 0 _ _ (by
        intro v hv
        fin_cases hv <;> rfl)
    rw [hvl, Option.some_bind]
    have e0 : ∀ bb : OscillatorBank,
        bb.process_samples voicesC4 (1 / 440) (0 + 1 / 440) 0
          = some (bb, []) := fun _ => rfl
    rw [e0, Option.map_some', Option.map_some']
    exact congrArg some c4_final_phase
  · have := Real.pi_pos
    intro hc
    linarith

end Orbital
